import Mathlib

/-!
Verification of the cache subsystem of the job-scraper repository
(`cache.py`, `redis_cache.py`).

The Redis-backed cache (`RedisJobDataCache`) is embedded shallowly:

* the visible Redis state is a pair of an association list from keys to
  string-keyed field maps (Redis hashes) and the one set used by the code
  (`active_searches`);
* Redis string values are modelled by `Val`, which distinguishes the two
  value shapes the code ever writes and parses: plain text (`Val.str`) and
  a JSON array of strings as produced by `json.dumps` of a string list
  (`Val.jlist`).  `json.loads` on a job-id/skills/requirements field
  succeeds exactly on the `jlist` shape and fails otherwise, matching the
  code paths in which `loads` is only ever applied to values that either
  were written by `json.dumps` or are malformed;
* timestamps (`datetime.now().isoformat()` and `datetime.fromisoformat`)
  are abstracted to natural numbers rendered in decimal (`natStr`), with
  `fromIso` as the partial parser; comparisons of parsed datetimes become
  comparisons of naturals, and an unparsable string raises (returns
  `none`) exactly as `fromisoformat` raises on a malformed date;
* the MD5 digest used for fingerprints and derived record ids is external
  library code; it is modelled as a perfectly injective digest (identity
  on the hashed parameter string), per the spec's collision-freedom
  invariant for the defined input domain.  Hex truncation is dropped with
  the same justification.

The filesystem cache (`JobDataCache`) is embedded as a map from file path
to modification time and (structurally decoded) JSON content.
-/

set_option autoImplicit false

namespace JobScraper

/-! ## Decimal rendering and parsing of naturals

`natStr` is the decimal rendering of a natural number (the image of
Python's `str` on a nonnegative int, and the stand-in for `isoformat`
under the time abstraction).  `parseNatStr` is the corresponding parser,
standing in for `datetime.fromisoformat`: it succeeds exactly on nonempty
all-digit strings. -/

/-- Little-endian decimal digits of `n`, with `fuel` an upper bound on `n`
driving structural recursion. -/
def digitsRevAux : Nat → Nat → List Nat
  | _, 0 => []
  | 0, _ + 1 => []
  | fuel + 1, n + 1 => (n + 1) % 10 :: digitsRevAux fuel ((n + 1) / 10)

/-- Little-endian decimal digits of `n` (empty for `0`). -/
def digitsRev (n : Nat) : List Nat := digitsRevAux n n

/-- Value of a little-endian digit list. -/
def ofDigitsRev : List Nat → Nat
  | [] => 0
  | d :: ds => d + 10 * ofDigitsRev ds

theorem ofDigitsRev_digitsRevAux (fuel : Nat) :
    ∀ n : Nat, n ≤ fuel → ofDigitsRev (digitsRevAux fuel n) = n := by
  induction fuel with
  | zero =>
    intro n hn
    interval_cases n
    rfl
  | succ fuel ih =>
    intro n hn
    match n with
    | 0 => rfl
    | m + 1 =>
      have hdiv : (m + 1) / 10 ≤ fuel := by
        have := Nat.div_le_self (m + 1) 10
        have h2 : (m + 1) / 10 < m + 1 := Nat.div_lt_self (Nat.succ_pos m) (by omega)
        omega
      simp only [digitsRevAux, ofDigitsRev, ih _ hdiv]
      omega

theorem ofDigitsRev_digitsRev (n : Nat) : ofDigitsRev (digitsRev n) = n :=
  ofDigitsRev_digitsRevAux n n (Nat.le_refl n)

theorem digitsRevAux_lt_ten (fuel : Nat) :
    ∀ n d : Nat, d ∈ digitsRevAux fuel n → d < 10 := by
  induction fuel with
  | zero =>
    intro n d hd
    match n with
    | 0 => simp [digitsRevAux] at hd
    | _ + 1 => simp [digitsRevAux] at hd
  | succ fuel ih =>
    intro n d hd
    match n with
    | 0 => simp [digitsRevAux] at hd
    | m + 1 =>
      simp only [digitsRevAux, List.mem_cons] at hd
      rcases hd with h | h
      · subst h; exact Nat.mod_lt _ (by omega)
      · exact ih _ _ h

theorem digitsRev_ne_nil (n : Nat) (hn : 0 < n) : digitsRev n ≠ [] := by
  match n, hn with
  | m + 1, _ => simp [digitsRev, digitsRevAux]

/-- Character for a decimal digit. -/
def digitChar (d : Nat) : Char := Char.ofNat (48 + d)

theorem digitChar_isDigit (d : Nat) (hd : d < 10) : (digitChar d).isDigit = true := by
  interval_cases d <;> decide

theorem digitChar_toNat (d : Nat) (hd : d < 10) : (digitChar d).toNat - 48 = d := by
  interval_cases d <;> decide

/-- Decimal rendering of a natural number, the model of Python `str` on a
nonnegative integer and of the `isoformat` timestamp rendering under the
time abstraction. -/
def natStr (n : Nat) : String :=
  if n = 0 then "0" else String.mk ((digitsRev n).reverse.map digitChar)

/-- Parser for decimal naturals, the model of `datetime.fromisoformat`
under the time abstraction: succeeds exactly on nonempty all-digit
strings. -/
def parseNatStr (s : String) : Option Nat :=
  if s.data ≠ [] ∧ s.data.all Char.isDigit then
    some (ofDigitsRev (s.data.reverse.map (fun c => c.toNat - 48)))
  else none

theorem parseNatStr_natStr (n : Nat) : parseNatStr (natStr n) = some n := by
  by_cases hn : n = 0
  · subst hn; decide
  · have hpos : 0 < n := Nat.pos_of_ne_zero hn
    have hlt := digitsRevAux_lt_ten n
    have hne : digitsRev n ≠ [] := digitsRev_ne_nil n hpos
    simp only [natStr, if_neg hn, parseNatStr]
    have hnonempty : (digitsRev n).reverse.map digitChar ≠ [] := by
      simp [hne]
    have halldig : ((digitsRev n).reverse.map digitChar).all Char.isDigit = true := by
      rw [List.all_eq_true]
      intro c hc
      rw [List.mem_map] at hc
      obtain ⟨d, hd, rfl⟩ := hc
      rw [List.mem_reverse] at hd
      exact digitChar_isDigit d (hlt n d hd)
    rw [if_pos ⟨hnonempty, halldig⟩]
    have hrev : ((digitsRev n).reverse.map digitChar).reverse
        = (digitsRev n).map digitChar := by
      rw [← List.map_reverse, List.reverse_reverse]
    rw [hrev, List.map_map]
    have hmap : (digitsRev n).map ((fun c => c.toNat - 48) ∘ digitChar) = digitsRev n := by
      have : ∀ l : List Nat, (∀ d ∈ l, d < 10) →
          l.map ((fun c => c.toNat - 48) ∘ digitChar) = l := by
        intro l
        induction l with
        | nil => intro _; rfl
        | cons d t iht =>
          intro hb
          simp only [List.map_cons, Function.comp_apply,
            digitChar_toNat d (hb d (by simp)), iht (fun x hx => hb x (by simp [hx]))]
      exact this _ (fun d hd => hlt n d hd)
    rw [hmap, ofDigitsRev_digitsRev]

theorem natStr_injective : Function.Injective natStr := by
  intro a b hab
  have := parseNatStr_natStr a
  rw [hab, parseNatStr_natStr b] at this
  exact (Option.some.injEq _ _).mp this.symm

end JobScraper

namespace JobScraper

/-! ## Redis values and field maps -/

/-- Model of a Redis string value as seen through a client with
`decode_responses=True`.  The code writes exactly two shapes of value:
plain text (including the decimal timestamp rendering) and the
`json.dumps` image of a list of strings.  `jlist xs` stands for the JSON
array text rendering of `xs`; `asString` recovers the literal text. -/
inductive Val where
  | str (s : String)
  | jlist (xs : List String)
deriving DecidableEq, Repr

/-- Backslash-escaping of `"` and `\` as performed by `json.dumps`. -/
def escapeChars : List Char → List Char
  | [] => []
  | c :: t => if c = '"' ∨ c = '\\' then '\\' :: c :: escapeChars t else c :: escapeChars t

/-- JSON string literal for `s`. -/
def quoteJson (s : String) : String := "\"" ++ String.mk (escapeChars s.data) ++ "\""

/-- Comma-separated JSON items, `json.dumps` style (separator `", "`). -/
def renderItems : List String → String
  | [] => ""
  | [s] => quoteJson s
  | s :: t => quoteJson s ++ ", " ++ renderItems t

/-- Text of the JSON array for a list of strings, as `json.dumps` renders it. -/
def renderJlist (xs : List String) : String := "[" ++ renderItems xs ++ "]"

/-- Literal text of a stored value. -/
def Val.asString : Val → String
  | .str s => s
  | .jlist xs => renderJlist xs

/-- Python truthiness of the stored value's text (empty string is falsy;
a JSON array text is never empty). -/
def Val.truthy : Val → Bool
  | .str s => !s.data.isEmpty
  | .jlist _ => true

/-- Model of `datetime.fromisoformat` on a stored value under the time
abstraction: parses the decimal timestamp rendering, raises (`none`) on
anything else — in particular on the empty string and on JSON array
text. -/
def fromIso (v : Val) : Option Nat :=
  match v with
  | .str s => parseNatStr s
  | .jlist _ => none

/-- Model of `json.loads` at the places the code expects a list of
strings (`job_ids`, `skills`, `requirements`): succeeds exactly on values
written by `json.dumps` of a string list, raises (`none`) on other text. -/
def fromJsonList : Val → Option (List String)
  | .jlist xs => some xs
  | .str _ => none

/-- A Redis hash: field name to value, first binding wins on lookup. -/
abbrev FieldMap := List (String × Val)

/-- Model of `dict.get(f, d)` on a hash read back from Redis. -/
def fmGetD (m : FieldMap) (f : String) (d : Val) : Val := (m.lookup f).getD d

/-- Overwrite field `f` in place, or append it, as `HSET` does per field. -/
def setField : FieldMap → String → Val → FieldMap
  | [], f, v => [(f, v)]
  | (g, w) :: t, f, v => if g = f then (f, v) :: t else (g, w) :: setField t f v

/-- Model of `HSET key mapping={...}`: each supplied field overwrites the
stored one, other stored fields survive. -/
def mergeFields (m new : FieldMap) : FieldMap :=
  new.foldl (fun acc p => setField acc p.1 p.2) m

/-- Last-binding lookup, used to state the effect of `mergeFields`. -/
def lookupLast (m : FieldMap) (f : String) : Option Val := m.reverse.lookup f

theorem lookup_setField_self (m : FieldMap) (f : String) (v : Val) :
    (setField m f v).lookup f = some v := by
  induction m with
  | nil => simp [setField, List.lookup]
  | cons p t ih =>
    obtain ⟨g, w⟩ := p
    by_cases hg : g = f
    · simp [setField, hg, List.lookup]
    · simp only [setField, if_neg hg, List.lookup]
      rw [show (f == g) = false by simp [Ne.symm hg]]
      exact ih

theorem lookup_setField_ne (m : FieldMap) (f g : String) (v : Val) (h : g ≠ f) :
    (setField m f v).lookup g = m.lookup g := by
  induction m with
  | nil =>
    simp only [setField, List.lookup]
    rw [show (g == f) = false by simpa using h]
  | cons p t ih =>
    obtain ⟨a, w⟩ := p
    by_cases ha : a = f
    · simp only [setField, if_pos ha, List.lookup]
      have h1 : (g == f) = false := by simpa using h
      have h2 : (g == a) = false := by rw [ha]; exact h1
      rw [h1, h2]
    · simp only [setField, if_neg ha, List.lookup]
      cases hga : g == a with
      | true => rfl
      | false => exact ih

theorem lookup_append {β : Type} (l₁ l₂ : List (String × β)) (f : String) :
    (l₁ ++ l₂).lookup f = ((l₁.lookup f).orElse (fun _ => l₂.lookup f)) := by
  induction l₁ with
  | nil => simp [List.lookup, Option.orElse]
  | cons p t ih =>
    obtain ⟨a, w⟩ := p
    simp only [List.cons_append, List.lookup]
    cases f == a with
    | true => simp [Option.orElse]
    | false => simpa using ih

theorem lookup_mergeFields (m new : FieldMap) (f : String) :
    (mergeFields m new).lookup f =
      match lookupLast new f with
      | some v => some v
      | none => m.lookup f := by
  induction new generalizing m with
  | nil => simp [mergeFields, lookupLast, List.lookup]
  | cons p t ih =>
    obtain ⟨a, v⟩ := p
    have hstep : mergeFields m ((a, v) :: t) = mergeFields (setField m a v) t := rfl
    rw [hstep, ih]
    have hlast : lookupLast ((a, v) :: t) f =
        match lookupLast t f with
        | some w => some w
        | none => List.lookup f [(a, v)] := by
      simp only [lookupLast, List.reverse_cons, lookup_append]
      cases List.lookup f t.reverse <;> simp [Option.orElse]
    rw [hlast]
    cases hl : lookupLast t f with
    | some w => simp
    | none =>
      simp only [List.lookup]
      cases hfa : f == a with
      | true =>
        have : f = a := by simpa using hfa
        subst this
        simp [lookup_setField_self]
      | false =>
        have : f ≠ a := by simpa using hfa
        simp [lookup_setField_ne m a f v this]

end JobScraper

namespace JobScraper

/-! ## The visible Redis state and the store primitives used by the code -/

/-- Visible state of the Redis database as the cache uses it: the hash
keys (`job-scraping:<id>` record hashes and `search:<fingerprint>` index
entries) and the single set `active_searches`.  Redis-native key TTLs
(`EXPIRE`) are server-side behaviour outside this model; the code's own
expiry logic reads the `expires_at` fields modelled here. -/
structure RedisState where
  hashes : List (String × FieldMap)
  activeSearches : List String
deriving DecidableEq, Repr

/-- Model of `HGETALL key` (empty map when the key is absent, which is
Python-falsy, as Redis never stores an empty hash). -/
def hgetall (st : RedisState) (k : String) : FieldMap :=
  (st.hashes.lookup k).getD []

/-- Model of `HGET key f` (`None` when key or field is absent). -/
def hget (st : RedisState) (k f : String) : Option Val :=
  (hgetall st k).lookup f

/-- Replace the binding of `k`, or append it. -/
def setAssoc {β : Type} : List (String × β) → String → β → List (String × β)
  | [], k, v => [(k, v)]
  | (a, w) :: t, k, v => if a = k then (k, v) :: t else (a, w) :: setAssoc t k v

/-- Model of `HSET key mapping=fields`: merge `fields` into the stored hash. -/
def hset (st : RedisState) (k : String) (fields : FieldMap) : RedisState :=
  { st with hashes := setAssoc st.hashes k (mergeFields (hgetall st k) fields) }

/-- Model of `DELETE key`. -/
def delKey (st : RedisState) (k : String) : RedisState :=
  { st with hashes := st.hashes.filter (fun p => !(p.1 == k)) }

/-- Model of `SADD active_searches k`. -/
def saddActive (st : RedisState) (k : String) : RedisState :=
  if k ∈ st.activeSearches then st
  else { st with activeSearches := st.activeSearches ++ [k] }

/-- Model of `SREM active_searches k`. -/
def sremActive (st : RedisState) (k : String) : RedisState :=
  { st with activeSearches := st.activeSearches.filter (fun x => !(x == k)) }

/-- Model of `KEYS prefix*` (scan order is the store's enumeration order). -/
def keysWithPrefix (st : RedisState) (p : String) : List String :=
  (st.hashes.map Prod.fst).filter (fun k => p.data.isPrefixOf k.data)

theorem lookup_setAssoc_self {β : Type} (l : List (String × β)) (k : String) (v : β) :
    (setAssoc l k v).lookup k = some v := by
  induction l with
  | nil => simp [setAssoc, List.lookup]
  | cons p t ih =>
    obtain ⟨a, w⟩ := p
    by_cases ha : a = k
    · simp [setAssoc, ha, List.lookup]
    · simp only [setAssoc, if_neg ha, List.lookup]
      rw [show (k == a) = false by simpa using Ne.symm ha]
      exact ih

theorem lookup_setAssoc_ne {β : Type} (l : List (String × β)) (k q : String) (v : β)
    (h : q ≠ k) : (setAssoc l k v).lookup q = l.lookup q := by
  induction l with
  | nil =>
    simp only [setAssoc, List.lookup]
    rw [show (q == k) = false by simpa using h]
  | cons p t ih =>
    obtain ⟨a, w⟩ := p
    by_cases ha : a = k
    · simp only [setAssoc, if_pos ha, List.lookup]
      have h1 : (q == k) = false := by simpa using h
      have h2 : (q == a) = false := by rw [ha]; exact h1
      rw [h1, h2]
    · simp only [setAssoc, if_neg ha, List.lookup]
      cases hqa : q == a with
      | true => rfl
      | false => exact ih

theorem lookup_filterOut_self {β : Type} (l : List (String × β)) (k : String) :
    (l.filter (fun p => !(p.1 == k))).lookup k = none := by
  induction l with
  | nil => simp [List.lookup]
  | cons p t ih =>
    obtain ⟨a, w⟩ := p
    by_cases ha : a = k
    · simpa [List.filter, ha] using ih
    · simp only [List.filter, show ((a, w).1 == k) = false by simpa using ha, List.lookup]
      rw [show (k == a) = false by simpa using Ne.symm ha]
      exact ih

theorem lookup_filterOut_ne {β : Type} (l : List (String × β)) (k q : String) (h : q ≠ k) :
    (l.filter (fun p => !(p.1 == k))).lookup q = l.lookup q := by
  induction l with
  | nil => simp [List.lookup]
  | cons p t ih =>
    obtain ⟨a, w⟩ := p
    by_cases ha : a = k
    · simp only [List.filter, show ((a, w).1 == k) = true by simpa using ha, Bool.not_true,
        List.lookup]
      rw [show (q == a) = false by simpa using (ha ▸ h)]
      exact ih
    · simp only [List.filter, show ((a, w).1 == k) = false by simpa using ha, List.lookup]
      cases hqa : q == a with
      | true => rfl
      | false => exact ih

theorem hgetall_hset_self (st : RedisState) (k : String) (fields : FieldMap) :
    hgetall (hset st k fields) k = mergeFields (hgetall st k) fields := by
  simp [hgetall, hset, lookup_setAssoc_self]

theorem hgetall_hset_ne (st : RedisState) (k q : String) (fields : FieldMap) (h : q ≠ k) :
    hgetall (hset st k fields) q = hgetall st q := by
  simp [hgetall, hset, lookup_setAssoc_ne _ _ _ _ h]

theorem hgetall_delKey_self (st : RedisState) (k : String) :
    hgetall (delKey st k) k = [] := by
  simp [hgetall, delKey, lookup_filterOut_self]

theorem hgetall_delKey_ne (st : RedisState) (k q : String) (h : q ≠ k) :
    hgetall (delKey st k) q = hgetall st q := by
  simp [hgetall, delKey, lookup_filterOut_ne _ _ _ h]

theorem lookup_delKey_self (st : RedisState) (k : String) :
    (delKey st k).hashes.lookup k = none := by
  simp [delKey, lookup_filterOut_self]

theorem lookup_delKey_ne (st : RedisState) (k q : String) (h : q ≠ k) :
    (delKey st k).hashes.lookup q = st.hashes.lookup q := by
  simp [delKey, lookup_filterOut_ne _ _ _ h]

theorem activeSearches_hset (st : RedisState) (k : String) (fields : FieldMap) :
    (hset st k fields).activeSearches = st.activeSearches := rfl

theorem activeSearches_delKey (st : RedisState) (k : String) :
    (delKey st k).activeSearches = st.activeSearches := rfl

theorem hashes_sremActive (st : RedisState) (k : String) :
    (sremActive st k).hashes = st.hashes := rfl

theorem mem_sremActive (st : RedisState) (k q : String) :
    q ∈ (sremActive st k).activeSearches ↔ q ∈ st.activeSearches ∧ q ≠ k := by
  simp [sremActive, List.mem_filter]

end JobScraper

namespace JobScraper

/-! ## Job records, the record codec, and the key builder -/

/-- A job record with the fields the cache reads and writes
(`redis_cache.py` schema; `record_id` is the `job_id` field). -/
structure JobRecord where
  title : String
  company : String
  location : String
  description : String
  requirements : List String
  job_type : String
  skills : List String
  posted_date : String
  job_url : String
  salary : String
  category : String
  is_trusted_company : Bool
  experience_level : String
  employment_type : String
  job_id : String
  remote_work : String
deriving DecidableEq, Repr

/-- ASCII lowering of a string, the model of Python `str.lower` on the
text the cache handles. -/
def strLower (s : String) : String := String.mk (s.data.map Char.toLower)

/-- Substring test on character lists. -/
def containsSub : List Char → List Char → Bool
  | [], needle => needle.isEmpty
  | c :: t, needle => needle.isPrefixOf (c :: t) || containsSub t needle

/-- Model of Python `needle in hay` on strings. -/
def strContains (hay needle : String) : Bool := containsSub hay.data needle.data

/-- Indicator lists of `_determine_remote_status`. -/
def remoteIndicators : List String := ["remote", "work from home", "wfh", "telecommute"]

/-- Hybrid indicator list of `_determine_remote_status`. -/
def hybridIndicators : List String := ["hybrid", "flexible", "part remote"]

/-- Model of `RedisJobDataCache._determine_remote_status`: classify a job
as Hybrid/Yes/No by scanning the lowered location, description and title
for indicator substrings (hybrid indicators shadow remote ones). -/
def determineRemoteStatus (j : JobRecord) : String :=
  let combined := strLower j.location ++ " " ++ strLower j.description ++ " " ++ strLower j.title
  if hybridIndicators.any (fun ind => strContains combined ind) then "Hybrid"
  else if remoteIndicators.any (fun ind => strContains combined ind) then "Yes"
  else "No"

/-- Model of the `hashlib.md5(...).hexdigest()` fingerprint.  MD5 is
external library code; per the spec's collision-freedom invariant it is
modelled as a perfectly injective digest, i.e. the identity on the hashed
parameter string (fixed-width hex rendering abstracted away). -/
def md5Hex (s : String) : String := s

/-- Rendering of an optional string argument inside the f-string of
`generate_cache_key` (`f"{None}"` is the text `None`). -/
def optStr : Option String → String
  | none => "None"
  | some s => s

/-- Model of `generate_cache_key` (identical in `cache.py` resp.
`redis_cache.py`): join the six search parameters with `_` and digest. -/
def generateCacheKey (keywords location : String) (maxJobs : Nat)
    (jobTypeFilter categoryFilter : Option String) (trustedOnly : Bool) : String :=
  md5Hex (keywords ++ "_" ++ location ++ "_" ++ natStr maxJobs ++ "_" ++
    optStr jobTypeFilter ++ "_" ++ optStr categoryFilter ++ "_" ++
    (if trustedOnly then "True" else "False"))

/-- Derived record id of `save_job_to_redis` for a record arriving without
one: digest of title+company+location (12-hex-char truncation dropped
under the injective-digest abstraction). -/
def deriveJobId (j : JobRecord) : String := md5Hex (j.title ++ j.company ++ j.location)

/-- The `if 'job_id' not in job_data` mutation of `save_job_to_redis`,
with a missing id modelled as the empty id. -/
def withJobId (j : JobRecord) : JobRecord :=
  if j.job_id = "" then { j with job_id := deriveJobId j } else j

/-- Encoder of `save_job_to_redis` (`redis_fields`, `redis_cache.py`
lines 80-99): the flat field map written for one record, in source order.
Note `remote` is recomputed from the record text and `responsibilities`
holds the description; `created_at`/`expires_at` carry the abstracted
timestamps. -/
def redisFields (now ttl : Nat) (j : JobRecord) : FieldMap :=
  [("title", .str j.title),
   ("company", .str j.company),
   ("skills", .jlist j.skills),
   ("salary", .str j.salary),
   ("location", .str j.location),
   ("job_type", .str j.job_type),
   ("experience_level", .str j.experience_level),
   ("category", .str j.category),
   ("posted_date", .str j.posted_date),
   ("url", .str j.job_url),
   ("job_id", .str j.job_id),
   ("requirements", .jlist j.requirements),
   ("responsibilities", .str j.description),
   ("employment_type", .str j.employment_type),
   ("remote", .str (determineRemoteStatus j)),
   ("is_trusted_company", .str (if j.is_trusted_company then "True" else "False")),
   ("created_at", .str (natStr now)),
   ("expires_at", .str (natStr (now + ttl)))]

/-- Decoder `_process_redis_job_data`: rebuild a record from a stored
hash, substituting defaults for missing fields.  The Python default text
`'[]'` for the two JSON list fields is the empty list value; if either
list field holds unparsable text, `json.loads` raises and the function
returns the empty dict, modelled as `none`. -/
def processRedisJobData (m : FieldMap) : Option JobRecord :=
  match fromJsonList (fmGetD m "requirements" (.jlist [])),
        fromJsonList (fmGetD m "skills" (.jlist [])) with
  | some reqs, some sks =>
    some {
      title := (fmGetD m "title" (.str "")).asString
      company := (fmGetD m "company" (.str "")).asString
      location := (fmGetD m "location" (.str "")).asString
      description := (fmGetD m "responsibilities" (.str "")).asString
      requirements := reqs
      job_type := (fmGetD m "job_type" (.str "")).asString
      skills := sks
      posted_date := (fmGetD m "posted_date" (.str "")).asString
      job_url := (fmGetD m "url" (.str "")).asString
      salary := (fmGetD m "salary" (.str "")).asString
      category := (fmGetD m "category" (.str "")).asString
      is_trusted_company := (fmGetD m "is_trusted_company" (.str "False")).asString == "True"
      experience_level := (fmGetD m "experience_level" (.str "")).asString
      employment_type := (fmGetD m "employment_type" (.str "")).asString
      job_id := (fmGetD m "job_id" (.str "")).asString
      remote_work := (fmGetD m "remote" (.str "No")).asString }
  | _, _ => none

/-- Model of `save_job_to_redis` on the success path: write the record
hash under `job-scraping:<job_id>`.  The per-key `EXPIRE` call is Redis
server behaviour outside the visible state. -/
def saveJobToRedis (now ttl : Nat) (st : RedisState) (j : JobRecord) : RedisState :=
  hset st ("job-scraping:" ++ j.job_id) (redisFields now ttl j)

end JobScraper

namespace JobScraper

/-! ## ResultCache operations (`save_to_cache`, `load_from_cache`, clears) -/

/-- Index-entry field map written by `save_to_cache` (`search_metadata`),
in source order. -/
def searchMetaFields (cacheKey : String) (ids : List String) (metadata : String)
    (now ttl : Nat) : FieldMap :=
  [("cache_key", .str cacheKey),
   ("job_ids", .jlist ids),
   ("job_count", .str (natStr ids.length)),
   ("metadata", .str metadata),
   ("created_at", .str (natStr now)),
   ("expires_at", .str (natStr (now + ttl)))]

/-- One iteration of the per-record loop in `save_to_cache`.  `writeOk`
is the store-failure environment: when the `i`-th record's write raises
inside `save_job_to_redis`, the function returns `False`, the state is
unchanged and the id is not collected; the loop continues either way. -/
def saveStep (now ttl : Nat) (writeOk : Nat → Bool)
    (acc : RedisState × List String) (p : Nat × JobRecord) : RedisState × List String :=
  let j := withJobId p.2
  if writeOk p.1 then (saveJobToRedis now ttl acc.1 j, acc.2 ++ [j.job_id]) else acc

/-- Model of `save_to_cache`: write each record (collecting the ids of
the successful writes), then the `search:<key>` index entry, then
register the fingerprint in `active_searches`. -/
def saveToCache (now ttl : Nat) (writeOk : Nat → Bool) (st : RedisState)
    (cacheKey : String) (jobs : List JobRecord) (metadata : String) : RedisState :=
  let r := jobs.enum.foldl (saveStep now ttl writeOk) (st, [])
  saddActive
    (hset r.1 ("search:" ++ cacheKey) (searchMetaFields cacheKey r.2 metadata now ttl))
    cacheKey

/-- Model of `clear_search_cache`: read the index entry; when it exists
and carries a `job_ids` field whose text parses as a JSON list, delete
the referenced record hashes; if the `job_ids` text is unparsable,
`json.loads` raises and the whole body is skipped (nothing is deleted);
otherwise fall through to deleting the entry and deregistering the
fingerprint. -/
def clearSearchCache (st : RedisState) (cacheKey : String) : RedisState :=
  let m := hgetall st ("search:" ++ cacheKey)
  match (if m.isEmpty then none else m.lookup "job_ids") with
  | some (.jlist ids) =>
    let st1 := ids.foldl (fun s i => delKey s ("job-scraping:" ++ i)) st
    sremActive (delKey st1 ("search:" ++ cacheKey)) cacheKey
  | some (.str _) => st
  | none => sremActive (delKey st ("search:" ++ cacheKey)) cacheKey

/-- Expiry test applied by `clear_expired_cache` to a truthy `expires_at`
text: expired when the parsed time has passed, and also when the text
does not parse (the `except` branch marks invalid dates expired).  A
falsy (empty) text is skipped, i.e. not expired. -/
def valExpired (now : Nat) (v : Val) : Bool :=
  if v.truthy then
    match fromIso v with
    | some e => decide (e < now)
    | none => true
  else false

/-- First loop of `clear_expired_cache`: does the active search `k` have
an expired (or invalid) `expires_at`? -/
def searchEntryExpired (now : Nat) (st : RedisState) (k : String) : Bool :=
  match hget st ("search:" ++ k) "expires_at" with
  | some v => valExpired now v
  | none => false

/-- Second loop of `clear_expired_cache`: is the record hash at key `k`
expired by its own `expires_at` field? -/
def jobKeyExpired (now : Nat) (st : RedisState) (k : String) : Bool :=
  match hget st k "expires_at" with
  | some v => valExpired now v
  | none => false

/-- Model of `clear_expired_cache`: sweep `active_searches` for expired
index entries and clear each (which also deletes the records the entry
references), then delete every remaining record hash whose own
`expires_at` has passed or is invalid. -/
def clearExpiredCache (now : Nat) (st : RedisState) : RedisState :=
  let expiredSearches := st.activeSearches.filter (searchEntryExpired now st)
  let st1 := expiredSearches.foldl clearSearchCache st
  let expiredJobs := (keysWithPrefix st1 "job-scraping:").filter (jobKeyExpired now st1)
  expiredJobs.foldl delKey st1

/-- Result shape of a `load_from_cache` hit (`timestamp` is the raw
`created_at` value, `None` when absent; `metadata` is the stored
metadata text, whose `json.loads` round-trip through `save_to_cache`'s
`json.dumps` is abstracted as the text itself). -/
structure LoadResult where
  timestamp : Option Val
  cache_key : String
  metadata : Val
  job_count : Nat
  data : List (Option JobRecord)
deriving DecidableEq, Repr

/-- Record-resolution loop of `load_from_cache`: missing record hashes
are silently skipped; present ones are decoded (a failed decode
contributes the empty dict, modelled `none`). -/
def loadJobs (st : RedisState) (ids : List String) : List (Option JobRecord) :=
  ids.foldl (fun acc i =>
    let jm := hgetall st ("job-scraping:" ++ i)
    if jm.isEmpty then acc else acc ++ [processRedisJobData jm]) []

/-- Model of `load_from_cache`: absent entry → no result; unparsable
`expires_at` raises, caught as no result; expired entry → clear it (a
write!) and no result; fresh entry → resolve the referenced records.  An
unparsable `job_ids` text raises, caught as no result. -/
def loadFromCache (now : Nat) (st : RedisState) (cacheKey : String) :
    RedisState × Option LoadResult :=
  let m := hgetall st ("search:" ++ cacheKey)
  if m.isEmpty then (st, none)
  else
    match fromIso (fmGetD m "expires_at" (.str "")) with
    | none => (st, none)
    | some e =>
      if e < now then (clearSearchCache st cacheKey, none)
      else
        match fmGetD m "job_ids" (.jlist []) with
        | .str _ => (st, none)
        | .jlist ids =>
          let jobs := loadJobs st ids
          (st, some { timestamp := m.lookup "created_at", cache_key := cacheKey,
                      metadata := fmGetD m "metadata" (.str "\x7b\x7d"),
                      job_count := jobs.length, data := jobs })

end JobScraper

namespace JobScraper

/-! ## Secondary search and statistics -/

/-- Search criteria of `search_jobs_by_criteria` (Python default `None`
keywords and `False` flags). -/
structure Criteria where
  titleKw : Option String := none
  companyKw : Option String := none
  locationKw : Option String := none
  remoteOnly : Bool := false
  trustedOnly : Bool := false
deriving DecidableEq, Repr

/-- One keyword filter: a falsy keyword (absent or empty) is inactive;
otherwise case-insensitive substring match against the field text. -/
def kwOk (kw : Option String) (fieldText : String) : Bool :=
  match kw with
  | none => true
  | some k => k.data.isEmpty || strContains (strLower fieldText) (strLower k)

/-- Conjunction of the filters of `search_jobs_by_criteria`, applied to a
stored record hash. -/
def matchesCriteria (c : Criteria) (m : FieldMap) : Bool :=
  kwOk c.titleKw (fmGetD m "title" (.str "")).asString &&
  kwOk c.companyKw (fmGetD m "company" (.str "")).asString &&
  kwOk c.locationKw (fmGetD m "location" (.str "")).asString &&
  (!c.remoteOnly || !((fmGetD m "remote" (.str "No")).asString == "No")) &&
  (!c.trustedOnly || (fmGetD m "is_trusted_company" (.str "False")).asString == "True")

/-- Scan loop of `search_jobs_by_criteria`: stop as soon as `limit`
matches are accumulated, skip absent hashes, decode and collect each
matching one. -/
def searchLoop (st : RedisState) (c : Criteria) (limit : Nat) :
    List String → List (Option JobRecord) → List (Option JobRecord)
  | [], acc => acc
  | k :: ks, acc =>
    if limit ≤ acc.length then acc
    else
      let m := hgetall st k
      if m.isEmpty then searchLoop st c limit ks acc
      else if matchesCriteria c m then
        searchLoop st c limit ks (acc ++ [processRedisJobData m])
      else searchLoop st c limit ks acc

/-- Model of `search_jobs_by_criteria`: prefix scan over all record
hashes with the criteria filters and the `limit` cut-off. -/
def searchJobsByCriteria (st : RedisState) (c : Criteria) (limit : Nat) :
    List (Option JobRecord) :=
  searchLoop st c limit (keysWithPrefix st "job-scraping:") []

/-- Statistics record of `get_job_statistics` (grouping dictionaries as
association lists in insertion order before the final descending sort). -/
structure JobStats where
  total_jobs : Nat
  by_company : List (String × Nat)
  by_location : List (String × Nat)
  by_job_type : List (String × Nat)
  by_category : List (String × Nat)
  by_experience_level : List (String × Nat)
  remote_yes : Nat
  remote_no : Nat
  remote_hybrid : Nat
  trusted_companies : Nat
deriving DecidableEq, Repr

/-- The `d[k] = d.get(k, 0) + 1` dictionary bump, keeping first-insertion
order. -/
def bump : List (String × Nat) → String → List (String × Nat)
  | [], k => [(k, 1)]
  | (a, n) :: t, k => if a = k then (a, n + 1) :: t else (a, n) :: bump t k

/-- Initial `stats` dictionary of `get_job_statistics`. -/
def statsInit : JobStats :=
  { total_jobs := 0, by_company := [], by_location := [], by_job_type := [],
    by_category := [], by_experience_level := [],
    remote_yes := 0, remote_no := 0, remote_hybrid := 0, trusted_companies := 0 }

/-- Per-record accumulation step of `get_job_statistics`. -/
def statsStep (s : JobStats) (m : FieldMap) : JobStats :=
  let remote := (fmGetD m "remote" (.str "No")).asString
  { total_jobs := s.total_jobs + 1
    by_company := bump s.by_company (fmGetD m "company" (.str "Unknown")).asString
    by_location := bump s.by_location (fmGetD m "location" (.str "Unknown")).asString
    by_job_type := bump s.by_job_type (fmGetD m "job_type" (.str "Unknown")).asString
    by_category := bump s.by_category (fmGetD m "category" (.str "Unknown")).asString
    by_experience_level :=
      bump s.by_experience_level (fmGetD m "experience_level" (.str "Unknown")).asString
    remote_yes := s.remote_yes + (if remote = "Yes" then 1 else 0)
    remote_no := s.remote_no + (if remote = "No" then 1 else 0)
    remote_hybrid := s.remote_hybrid + (if remote = "Hybrid" then 1 else 0)
    trusted_companies := s.trusted_companies +
      (if (fmGetD m "is_trusted_company" (.str "False")).asString = "True" then 1 else 0) }

/-- Stable descending insertion by count: place `x` before the first
element of no greater count (Python `sorted(..., key=count, reverse=True)`
is stable, keeping first-seen order among equal counts). -/
def insertDesc (x : String × Nat) : List (String × Nat) → List (String × Nat)
  | [] => [x]
  | y :: t => if y.2 ≤ x.2 then x :: y :: t else y :: insertDesc x t

/-- Stable sort by descending count. -/
def sortDesc (l : List (String × Nat)) : List (String × Nat) := l.foldr insertDesc []

/-- The stored record hashes that are live (key present and hash
nonempty), in scan order. -/
def liveJobMaps (st : RedisState) : List FieldMap :=
  ((keysWithPrefix st "job-scraping:").map (hgetall st)).filter (fun m => !m.isEmpty)

/-- Model of `get_job_statistics`: on an empty key scan the code
early-returns the reduced dict `{'total_jobs': 0}`, modelled as `none`;
otherwise accumulate over all live record hashes and sort each grouping
by descending count. -/
def getJobStatistics (st : RedisState) : Option JobStats :=
  if (keysWithPrefix st "job-scraping:").isEmpty then none
  else
    let s := (liveJobMaps st).foldl statsStep statsInit
    some { s with
      by_company := sortDesc s.by_company
      by_location := sortDesc s.by_location
      by_job_type := sortDesc s.by_job_type
      by_category := sortDesc s.by_category
      by_experience_level := sortDesc s.by_experience_level }

/-! ## Filesystem backend (`cache.py`) -/

/-- JSON content of a filesystem cache file, decoded structurally (the
metadata dict is opaque text). -/
structure CacheFile where
  timestamp : Nat
  cache_key : String
  metadata : String
  job_count : Nat
  data : List JobRecord
deriving DecidableEq, Repr

/-- A cache file on disk: modification time plus decoded content. -/
structure FsFile where
  mtime : Nat
  content : CacheFile
deriving DecidableEq, Repr

/-- The cache directory: file path to file. -/
structure FsState where
  files : List (String × FsFile)
deriving DecidableEq, Repr

/-- Model of `get_cache_file_path`. -/
def getCacheFilePath (dir key : String) : String := dir ++ "/" ++ key ++ ".json"

/-- Model of `is_cache_valid`: the file exists and its modification time
(not any field of the JSON) is within the cache duration, boundary
inclusive. -/
def isCacheValid (now dur : Nat) (st : FsState) (path : String) : Bool :=
  match st.files.lookup path with
  | none => false
  | some f => decide (now - f.mtime ≤ dur)

/-- Model of `JobDataCache.save_to_cache`: write (or overwrite) the cache
file; the modification time becomes the write time. -/
def fsSaveToCache (now : Nat) (st : FsState) (dir key : String)
    (data : List JobRecord) (metadata : String) : FsState :=
  { files := setAssoc st.files (getCacheFilePath dir key)
      { mtime := now,
        content := { timestamp := now, cache_key := key, metadata := metadata,
                     job_count := data.length, data := data } } }

/-- Model of `JobDataCache.load_from_cache`: return the decoded file
content when `is_cache_valid` holds, else no result. -/
def fsLoadFromCache (now dur : Nat) (st : FsState) (dir key : String) : Option CacheFile :=
  if isCacheValid now dur st (getCacheFilePath dir key) then
    (st.files.lookup (getCacheFilePath dir key)).map FsFile.content
  else none

end JobScraper

namespace JobScraper

/-! ## Claim C2: record codec round-trip -/

theorem string_data_inj {s t : String} (h : s.data = t.data) : s = t := by
  cases s; cases t; exact congrArg String.mk h

/-- A fully-populated record whose `remote_work` field (`"Yes"`) is not
what `_determine_remote_status` computes from its text (no remote
indicator occurs in location, description or title). -/
def remoteMismatchRecord : JobRecord :=
  { title := "Backend Engineer", company := "Acme", location := "Office",
    description := "On-site role", requirements := ["3 years Python"],
    job_type := "Full-time", skills := ["python"], posted_date := "2024-01-01",
    job_url := "https://acme.example/1", salary := "100k",
    category := "Software Engineering", is_trusted_company := true,
    experience_level := "Senior", employment_type := "Full-time",
    job_id := "abc123", remote_work := "Yes" }

/-- C2 counterexample: decode after encode does not return the original
record — the `remote_work` of the decoded record is the recomputed
`_determine_remote_status` value `"No"`, not the original `"Yes"`, so
`decode(encode(R)) == R` fails on the `remote_work` field. -/
theorem decode_encode_remote_cex :
    (processRedisJobData (redisFields 0 1 remoteMismatchRecord)).map JobRecord.remote_work
        = some "No"
    ∧ remoteMismatchRecord.remote_work = "Yes"
    ∧ processRedisJobData (redisFields 0 1 remoteMismatchRecord)
        ≠ some remoteMismatchRecord := by
  exact ⟨by decide, rfl, by decide⟩

/-- C2 (amended): for every JobRecord `R`, `decode(encode(R))` returns
`R` on every field — booleans round-tripping through `"True"`/`"False"`,
skills and requirements through the JSON array value, description through
`responsibilities` and `job_url` through `url` — except `remote_work`,
which `save_job_to_redis` does not copy but recomputes from the record's
location/description/title via `_determine_remote_status`; the decoded
`remote_work` is that recomputed status, regardless of `R.remote_work`. -/
theorem decode_encode_roundtrip_amended (now ttl : Nat) (r : JobRecord) :
    processRedisJobData (redisFields now ttl r)
      = some { r with remote_work := determineRemoteStatus r } := by
  cases r with
  | mk t c l d rq jt sk pd ju sa ca itc el et ji rw => cases itc <;> rfl

/-! ## Claim C3: cache key determinism and per-argument injectivity -/

/-- C3 counterexample: two queries that differ in exactly one argument —
`job_type_filter = None` versus the string `"None"` — produce the same
fingerprint, because the f-string renders `None` as the text `None`. -/
theorem build_key_none_collision_cex :
    generateCacheKey "python developer" "New York" 50 none none true
      = generateCacheKey "python developer" "New York" 50 (some "None") none true
    ∧ (none : Option String) ≠ some "None" := by
  exact ⟨rfl, by decide⟩

/-- C3 (amended): `generate_cache_key` is a pure deterministic function
of its six arguments, and varying exactly one argument (all others held
fixed) changes the key — except that an optional filter argument is
rendered through `f"{...}"`, which conflates `None` with the literal
string `"None"`; the key changes whenever the rendered text of the varied
argument changes.  In particular `trusted_only=True` versus
`trusted_only=False` always produce different fingerprints.  (The MD5
digest is modelled as injective, per the spec's collision-freedom
invariant.) -/
theorem build_key_deterministic_injective_amended :
    (∀ (kw loc : String) (mx : Nat) (jt cf : Option String) (tr : Bool),
      generateCacheKey kw loc mx jt cf tr = generateCacheKey kw loc mx jt cf tr)
    ∧ (∀ (kw kw' loc : String) (mx : Nat) (jt cf : Option String) (tr : Bool), kw ≠ kw' →
      generateCacheKey kw loc mx jt cf tr ≠ generateCacheKey kw' loc mx jt cf tr)
    ∧ (∀ (kw loc loc' : String) (mx : Nat) (jt cf : Option String) (tr : Bool), loc ≠ loc' →
      generateCacheKey kw loc mx jt cf tr ≠ generateCacheKey kw loc' mx jt cf tr)
    ∧ (∀ (kw loc : String) (mx mx' : Nat) (jt cf : Option String) (tr : Bool), mx ≠ mx' →
      generateCacheKey kw loc mx jt cf tr ≠ generateCacheKey kw loc mx' jt cf tr)
    ∧ (∀ (kw loc : String) (mx : Nat) (jt jt' cf : Option String) (tr : Bool),
        optStr jt ≠ optStr jt' →
      generateCacheKey kw loc mx jt cf tr ≠ generateCacheKey kw loc mx jt' cf tr)
    ∧ (∀ (kw loc : String) (mx : Nat) (jt cf cf' : Option String) (tr : Bool),
        optStr cf ≠ optStr cf' →
      generateCacheKey kw loc mx jt cf tr ≠ generateCacheKey kw loc mx jt cf' tr)
    ∧ (∀ (kw loc : String) (mx : Nat) (jt cf : Option String) (tr tr' : Bool), tr ≠ tr' →
      generateCacheKey kw loc mx jt cf tr ≠ generateCacheKey kw loc mx jt cf tr') := by
  refine ⟨fun _ _ _ _ _ _ => rfl, ?_, ?_, ?_, ?_, ?_, ?_⟩
  · intro kw kw' loc mx jt cf tr hne h
    apply hne
    have hd := congrArg String.data h
    simp only [generateCacheKey, md5Hex, String.data_append, List.append_assoc] at hd
    exact string_data_inj (List.append_cancel_right hd)
  · intro kw loc loc' mx jt cf tr hne h
    apply hne
    have hd := congrArg String.data h
    simp only [generateCacheKey, md5Hex, String.data_append, List.append_assoc] at hd
    have h1 := List.append_cancel_left (List.append_cancel_left hd)
    exact string_data_inj (List.append_cancel_right h1)
  · intro kw loc mx mx' jt cf tr hne h
    apply hne
    have hd := congrArg String.data h
    simp only [generateCacheKey, md5Hex, String.data_append, List.append_assoc] at hd
    have h1 := List.append_cancel_left (List.append_cancel_left (List.append_cancel_left
      (List.append_cancel_left hd)))
    exact natStr_injective (string_data_inj (List.append_cancel_right h1))
  · intro kw loc mx jt jt' cf tr hne h
    apply hne
    have hd := congrArg String.data h
    simp only [generateCacheKey, md5Hex, String.data_append, List.append_assoc] at hd
    have h1 := List.append_cancel_left (List.append_cancel_left (List.append_cancel_left
      (List.append_cancel_left (List.append_cancel_left (List.append_cancel_left hd)))))
    exact string_data_inj (List.append_cancel_right h1)
  · intro kw loc mx jt cf cf' tr hne h
    apply hne
    have hd := congrArg String.data h
    simp only [generateCacheKey, md5Hex, String.data_append, List.append_assoc] at hd
    have h1 := List.append_cancel_left (List.append_cancel_left (List.append_cancel_left
      (List.append_cancel_left (List.append_cancel_left (List.append_cancel_left
      (List.append_cancel_left (List.append_cancel_left hd)))))))
    exact string_data_inj (List.append_cancel_right h1)
  · intro kw loc mx jt cf tr tr' hne h
    have hd := congrArg String.data h
    simp only [generateCacheKey, md5Hex, String.data_append, List.append_assoc] at hd
    have h1 := List.append_cancel_left (List.append_cancel_left (List.append_cancel_left
      (List.append_cancel_left (List.append_cancel_left (List.append_cancel_left
      (List.append_cancel_left (List.append_cancel_left (List.append_cancel_left
      (List.append_cancel_left hd)))))))))
    cases tr <;> cases tr' <;> simp_all

/-- C3 witness: the amended injectivity at a concrete input — flipping
only `trusted_only` changes the fingerprint. -/
theorem build_key_trusted_flag_witness :
    generateCacheKey "python developer" "New York" 50 none none true
      ≠ generateCacheKey "python developer" "New York" 50 none none false :=
  build_key_deterministic_injective_amended.2.2.2.2.2.2
    "python developer" "New York" 50 none none true false (by decide)

/-! ## Claim C5: decode tolerance of malformed stored hashes -/

/-- C5 counterexample: a stored hash whose `requirements` field holds
unparsable text does not decode to a best-effort record — `json.loads`
raises and `_process_redis_job_data` returns the empty dict (`none`),
i.e. an empty result. -/
theorem decode_unparsable_empty_cex :
    processRedisJobData [("title", Val.str "X"), ("requirements", Val.str "not json")]
      = none := rfl

/-- C5 (amended): `_process_redis_job_data` never raises; a hash missing
any expected fields decodes to a record with type-appropriate defaults
(empty strings, empty lists, `false` trust flag, `"No"` remote status) —
decoding succeeds exactly when the two nested list fields are absent or
parse as JSON lists; but a hash whose nested list fields hold unparsable
text decodes to the empty dict (`none`), not to a best-effort record. -/
theorem decode_defaults_amended :
    (∀ m : FieldMap, (processRedisJobData m).isSome ↔
      ((fromJsonList (fmGetD m "requirements" (.jlist []))).isSome
        ∧ (fromJsonList (fmGetD m "skills" (.jlist []))).isSome))
    ∧ processRedisJobData [] = some
      { title := "", company := "", location := "", description := "", requirements := [],
        job_type := "", skills := [], posted_date := "", job_url := "", salary := "",
        category := "", is_trusted_company := false, experience_level := "",
        employment_type := "", job_id := "", remote_work := "No" }
    ∧ processRedisJobData [("requirements", Val.str "oops")] = none := by
  refine ⟨?_, rfl, rfl⟩
  intro m
  cases h1 : fromJsonList (fmGetD m "requirements" (.jlist [])) <;>
    cases h2 : fromJsonList (fmGetD m "skills" (.jlist [])) <;>
      simp [processRedisJobData, h1, h2]

end JobScraper

namespace JobScraper

/-! ## Claims C7 and C10: secondary search -/

theorem searchLoop_characterization (st : RedisState) (c : Criteria) (limit : Nat) :
    ∀ (ks : List String) (acc : List (Option JobRecord)), acc.length ≤ limit →
    searchLoop st c limit ks acc =
      acc ++ (((ks.map (hgetall st)).filter
        (fun m => !m.isEmpty && matchesCriteria c m)).take (limit - acc.length)).map
          processRedisJobData := by
  intro ks
  induction ks with
  | nil => intro acc _; simp [searchLoop]
  | cons k t ih =>
    intro acc hacc
    by_cases hl : limit ≤ acc.length
    · have hz : limit - acc.length = 0 := by omega
      simp [searchLoop, hl, hz]
    · simp only [searchLoop, List.map_cons, List.filter_cons]
      rw [if_neg hl]
      by_cases hm : (hgetall st k).isEmpty
      · rw [if_pos hm]
        have hc : ¬ ((!(hgetall st k).isEmpty && matchesCriteria c (hgetall st k)) = true) := by
          simp [hm]
        rw [if_neg hc]
        exact ih acc hacc
      · rw [if_neg hm]
        by_cases hmc : matchesCriteria c (hgetall st k)
        · rw [if_pos hmc]
          have hc : (!(hgetall st k).isEmpty && matchesCriteria c (hgetall st k)) = true := by
            simp [hm, hmc]
          rw [if_pos hc]
          have hlen : (acc ++ [processRedisJobData (hgetall st k)]).length ≤ limit := by
            simp
            omega
          rw [ih _ hlen]
          obtain ⟨d, hd⟩ : ∃ d, limit - acc.length = d + 1 :=
            ⟨limit - acc.length - 1, by omega⟩
          have hd2 : limit - (acc ++ [processRedisJobData (hgetall st k)]).length = d := by
            simp
            omega
          rw [hd, hd2, List.take_succ_cons, List.map_cons]
          simp
        · rw [if_neg hmc]
          have hc : ¬ ((!(hgetall st k).isEmpty && matchesCriteria c (hgetall st k)) = true) := by
            simp [hmc]
          rw [if_neg hc]
          exact ih acc hacc

theorem filter_live_split (st : RedisState) (c : Criteria) (ks : List String) :
    ((ks.map (hgetall st)).filter (fun m => !m.isEmpty && matchesCriteria c m))
      = ((ks.map (hgetall st)).filter (fun m => !m.isEmpty)).filter (matchesCriteria c) := by
  induction ks with
  | nil => rfl
  | cons k t ih =>
    simp only [List.map_cons, List.filter_cons]
    by_cases hm : (hgetall st k).isEmpty
    · simp [hm, ih]
    · by_cases hmc : matchesCriteria c (hgetall st k) <;> simp [hm, hmc, ih]

/-- The scan loop equals: decode the first `limit` live record hashes
satisfying the criteria conjunction, in scan order. -/
theorem searchJobsByCriteria_characterization (st : RedisState) (c : Criteria) (limit : Nat) :
    searchJobsByCriteria st c limit
      = (((liveJobMaps st).filter (matchesCriteria c)).take limit).map processRedisJobData := by
  rw [searchJobsByCriteria, searchLoop_characterization st c limit _ [] (by simp)]
  rw [filter_live_split]
  simp [liveJobMaps]

/-- The stored record of the C7 scenario (its `remote_work` is also what
`_determine_remote_status` computes, since its location is `Remote`). -/
def scenarioRecord : JobRecord :=
  { title := "Backend Engineer", company := "Acme", location := "Remote",
    description := "", requirements := [], job_type := "Full-time", skills := [],
    posted_date := "", job_url := "", salary := "", category := "",
    is_trusted_company := true, experience_level := "", employment_type := "",
    job_id := "scn1", remote_work := "Yes" }

/-- A store holding exactly the C7 scenario record. -/
def scenarioState : RedisState :=
  { hashes := [("job-scraping:scn1", redisFields 0 100 scenarioRecord)],
    activeSearches := [] }

/-- C7: `search_jobs_by_criteria` returns exactly the decoded first
`limit` stored records satisfying the conjunction of all supplied
predicates (case-insensitive substring keywords, remote and trusted
flags), hence at most `limit` records and only matching ones; an empty
match set yields the empty list, not an error; and on the scenario store
holding the record Backend Engineer / Acme / Remote / trusted,
`remote_only` and a case-insensitive company search return it while a
`frontend` title search returns the empty list. -/
theorem search_criteria_conjunction (st : RedisState) (c : Criteria) (limit : Nat) :
    (searchJobsByCriteria st c limit
      = (((liveJobMaps st).filter (matchesCriteria c)).take limit).map processRedisJobData)
    ∧ (searchJobsByCriteria st c limit).length ≤ limit
    ∧ ((liveJobMaps st).filter (matchesCriteria c) = [] →
        searchJobsByCriteria st c limit = [])
    ∧ searchJobsByCriteria scenarioState { remoteOnly := true } 50 = [some scenarioRecord]
    ∧ searchJobsByCriteria scenarioState { companyKw := some "acme" } 50 = [some scenarioRecord]
    ∧ searchJobsByCriteria scenarioState { titleKw := some "frontend" } 50 = [] := by
  refine ⟨searchJobsByCriteria_characterization st c limit, ?_, ?_,
    by decide, by decide, by decide⟩
  · rw [searchJobsByCriteria_characterization]
    simp [List.length_take]
  · intro h
    rw [searchJobsByCriteria_characterization, h]
    simp

/-- C7 witness: the empty-match conclusion applied at a concrete store. -/
theorem search_criteria_conjunction_witness :
    searchJobsByCriteria { hashes := [], activeSearches := [] }
      { titleKw := some "frontend" } 10 = [] :=
  (search_criteria_conjunction { hashes := [], activeSearches := [] }
    { titleKw := some "frontend" } 10).2.2.1 (by decide)

/-- C10: with `remote_only=True` the scan keeps exactly the records whose
stored `remote` value (defaulting to `"No"` when absent) differs from
`"No"` — so `"Hybrid"` records are returned just like `"Yes"` records,
and `"No"`/absent records are excluded. -/
theorem search_remote_only_hybrid (st : RedisState) (limit : Nat) :
    (∀ m : FieldMap, matchesCriteria { remoteOnly := true } m
        = !((fmGetD m "remote" (.str "No")).asString == "No"))
    ∧ searchJobsByCriteria st { remoteOnly := true } limit
      = (((liveJobMaps st).filter
          (fun m => !((fmGetD m "remote" (.str "No")).asString == "No"))).take limit).map
            processRedisJobData
    ∧ matchesCriteria { remoteOnly := true } [("remote", .str "Hybrid")] = true
    ∧ matchesCriteria { remoteOnly := true } [("remote", .str "Yes")] = true
    ∧ matchesCriteria { remoteOnly := true } [("remote", .str "No")] = false
    ∧ matchesCriteria { remoteOnly := true } [] = false := by
  have hpred : ∀ m : FieldMap, matchesCriteria { remoteOnly := true } m
      = !((fmGetD m "remote" (.str "No")).asString == "No") := by
    intro m
    simp [matchesCriteria, kwOk]
  refine ⟨hpred, ?_, by decide, by decide, by decide, by decide⟩
  rw [searchJobsByCriteria_characterization]
  rw [List.filter_congr (fun m _ => hpred m)]

end JobScraper

namespace JobScraper

/-! ## Claim C4: TTL boundary on both backends -/

theorem lookup_some_not_isEmpty (m : FieldMap) (f : String) (v : Val)
    (h : m.lookup f = some v) : m.isEmpty = false := by
  cases m with
  | nil => simp [List.lookup] at h
  | cons p t => rfl

theorem hashes_saddActive (st : RedisState) (k : String) :
    (saddActive st k).hashes = st.hashes := by
  unfold saddActive
  split <;> rfl

theorem hgetall_saddActive (st : RedisState) (k q : String) :
    hgetall (saddActive st k) q = hgetall st q := by
  unfold hgetall
  rw [hashes_saddActive]

theorem saveToCache_search_hgetall (now ttl : Nat) (writeOk : Nat → Bool) (st : RedisState)
    (key meta : String) (jobs : List JobRecord) :
    hgetall (saveToCache now ttl writeOk st key jobs meta) ("search:" ++ key)
      = mergeFields
          (hgetall ((jobs.enum.foldl (saveStep now ttl writeOk) (st, [])).1) ("search:" ++ key))
          (searchMetaFields key ((jobs.enum.foldl (saveStep now ttl writeOk) (st, [])).2)
            meta now ttl) := by
  simp only [saveToCache]
  rw [hgetall_saddActive, hgetall_hset_self]

theorem mergeFields_searchMeta_expires (m : FieldMap) (key meta : String) (ids : List String)
    (now ttl : Nat) :
    (mergeFields m (searchMetaFields key ids meta now ttl)).lookup "expires_at"
      = some (.str (natStr (now + ttl))) := by
  rw [lookup_mergeFields]
  rfl

theorem mergeFields_searchMeta_jobIds (m : FieldMap) (key meta : String) (ids : List String)
    (now ttl : Nat) :
    (mergeFields m (searchMetaFields key ids meta now ttl)).lookup "job_ids"
      = some (.jlist ids) := by
  rw [lookup_mergeFields]
  rfl

/-- When the index entry exists with a parsed expiry that has not passed
and a well-formed `job_ids` list, `load_from_cache` returns a result. -/
theorem loadFromCache_fresh_isSome (now' : Nat) (st : RedisState) (key : String)
    (e : Nat) (ids : List String)
    (hne : (hgetall st ("search:" ++ key)).isEmpty = false)
    (hexp : fromIso (fmGetD (hgetall st ("search:" ++ key)) "expires_at" (.str "")) = some e)
    (hids : fmGetD (hgetall st ("search:" ++ key)) "job_ids" (.jlist []) = .jlist ids)
    (hfresh : ¬ e < now') :
    (loadFromCache now' st key).2.isSome = true := by
  simp only [loadFromCache, hne, hexp, hids]
  rw [if_neg (by simp), if_neg hfresh]
  rfl

/-- When the index entry exists with a parsed expiry that has passed,
`load_from_cache` clears the entry and returns no result. -/
theorem loadFromCache_stale (now' : Nat) (st : RedisState) (key : String) (e : Nat)
    (hne : (hgetall st ("search:" ++ key)).isEmpty = false)
    (hexp : fromIso (fmGetD (hgetall st ("search:" ++ key)) "expires_at" (.str "")) = some e)
    (hstale : e < now') :
    loadFromCache now' st key = (clearSearchCache st key, none) := by
  simp only [loadFromCache, hne, hexp]
  rw [if_neg (by simp), if_pos hstale]

/-- C4: an entry written at time `t` with TTL `T` is fresh at `t+T-1`
(`get` returns a result) and stale/absent at `t+T+1` (`get` returns no
result), on both backends: the networked backend judges expiry from the
stored `expires_at` timestamp, the filesystem backend from the file
modification time (the fresh filesystem read returns exactly the written
content). -/
theorem ttl_boundary_fresh_stale (stR : RedisState) (stF : FsState)
    (dir key meta : String) (jobs data : List JobRecord) (writeOk : Nat → Bool)
    (t T : Nat) (hT : 1 ≤ T) :
    ((loadFromCache (t + T - 1) (saveToCache t T writeOk stR key jobs meta) key).2.isSome
        = true
    ∧ (loadFromCache (t + T + 1) (saveToCache t T writeOk stR key jobs meta) key).2 = none)
    ∧ (fsLoadFromCache (t + T - 1) T (fsSaveToCache t stF dir key data meta) dir key
        = some { timestamp := t, cache_key := key, metadata := meta,
                 job_count := data.length, data := data }
    ∧ fsLoadFromCache (t + T + 1) T (fsSaveToCache t stF dir key data meta) dir key
        = none) := by
  have hs := saveToCache_search_hgetall t T writeOk stR key meta jobs
  have hexp : fromIso (fmGetD (hgetall (saveToCache t T writeOk stR key jobs meta)
      ("search:" ++ key)) "expires_at" (.str "")) = some (t + T) := by
    rw [hs]
    simp [fmGetD, mergeFields_searchMeta_expires, fromIso, parseNatStr_natStr]
  have hids : fmGetD (hgetall (saveToCache t T writeOk stR key jobs meta)
      ("search:" ++ key)) "job_ids" (.jlist [])
      = .jlist (jobs.enum.foldl (saveStep t T writeOk) (stR, [])).2 := by
    rw [hs]
    simp [fmGetD, mergeFields_searchMeta_jobIds]
  have hne : (hgetall (saveToCache t T writeOk stR key jobs meta)
      ("search:" ++ key)).isEmpty = false := by
    rw [hs]
    exact lookup_some_not_isEmpty _ _ _ (mergeFields_searchMeta_expires _ _ _ _ _ _)
  refine ⟨⟨?_, ?_⟩, ?_, ?_⟩
  · exact loadFromCache_fresh_isSome _ _ _ (t + T) _ hne hexp hids (by omega)
  · rw [loadFromCache_stale _ _ _ (t + T) hne hexp (by omega)]
  · simp only [fsLoadFromCache, fsSaveToCache, isCacheValid, lookup_setAssoc_self]
    rw [if_pos (by simp; omega)]
    rfl
  · simp only [fsLoadFromCache, fsSaveToCache, isCacheValid, lookup_setAssoc_self]
    rw [if_neg (by simp; omega)]

/-- C4 witness: the boundary behaviour at a concrete write (time 10,
TTL 2 seconds, empty prior stores). -/
theorem ttl_boundary_fresh_stale_witness :
    1 ≤ 2
    ∧ ((loadFromCache (10 + 2 - 1)
          (saveToCache 10 2 (fun _ => true)
            { hashes := [], activeSearches := [] } "k" [] "m") "k").2.isSome = true
    ∧ (loadFromCache (10 + 2 + 1)
          (saveToCache 10 2 (fun _ => true)
            { hashes := [], activeSearches := [] } "k" [] "m") "k").2 = none)
    ∧ (fsLoadFromCache (10 + 2 - 1) 2 (fsSaveToCache 10 { files := [] } "cache" "k" [] "m")
          "cache" "k"
        = some { timestamp := 10, cache_key := "k", metadata := "m",
                 job_count := ([] : List JobRecord).length, data := [] }
    ∧ fsLoadFromCache (10 + 2 + 1) 2 (fsSaveToCache 10 { files := [] } "cache" "k" [] "m")
          "cache" "k" = none) :=
  ⟨by decide,
   ttl_boundary_fresh_stale { hashes := [], activeSearches := [] } { files := [] }
     "cache" "k" "m" [] [] (fun _ => true) 10 2 (by decide)⟩

end JobScraper

namespace JobScraper

/-! ## Claim C9: an expired `load_from_cache` is destructive -/

theorem jobKey_ne_searchKey (a b : String) : "job-scraping:" ++ a ≠ "search:" ++ b := by
  intro h
  have h1 : ("job-scraping:" ++ a).data.head? = ("search:" ++ b).data.head? := by rw [h]
  have hj : ("job-scraping:" ++ a).data.head? = some 'j' := by
    rw [String.data_append]
    rfl
  have hs : ("search:" ++ b).data.head? = some 's' := by
    rw [String.data_append]
    rfl
  rw [hj, hs] at h1
  simp at h1

theorem foldl_delJobs_lookup (ids : List String) : ∀ (st : RedisState) (q : String),
    (ids.foldl (fun s i => delKey s ("job-scraping:" ++ i)) st).hashes.lookup q
      = if ids.any (fun i => q == "job-scraping:" ++ i) then none
        else st.hashes.lookup q := by
  induction ids with
  | nil => intro st q; simp
  | cons i t ih =>
    intro st q
    simp only [List.foldl_cons, List.any_cons]
    rw [ih]
    by_cases hq : q = "job-scraping:" ++ i
    · subst hq
      simp [lookup_delKey_self]
    · have hb : (q == "job-scraping:" ++ i) = false := by simpa using hq
      simp only [hb, Bool.false_or, lookup_delKey_ne st _ q hq]

theorem foldl_delJobs_active (ids : List String) : ∀ st : RedisState,
    (ids.foldl (fun s i => delKey s ("job-scraping:" ++ i)) st).activeSearches
      = st.activeSearches := by
  induction ids with
  | nil => intro st; rfl
  | cons i t ih => intro st; rw [List.foldl_cons, ih, activeSearches_delKey]

/-- Effect of `clear_search_cache` on an index entry whose `job_ids`
field is a well-formed JSON list: the entry and every referenced record
hash are deleted and the fingerprint is deregistered; every other key is
untouched. -/
theorem clearSearchCache_spec (st : RedisState) (key : String) (ids : List String)
    (hids : (hgetall st ("search:" ++ key)).lookup "job_ids" = some (.jlist ids)) :
    ((clearSearchCache st key).hashes.lookup ("search:" ++ key) = none)
    ∧ (∀ i ∈ ids, (clearSearchCache st key).hashes.lookup ("job-scraping:" ++ i) = none)
    ∧ (∀ q, q ≠ "search:" ++ key → (∀ i ∈ ids, q ≠ "job-scraping:" ++ i) →
        (clearSearchCache st key).hashes.lookup q = st.hashes.lookup q)
    ∧ (clearSearchCache st key).activeSearches
        = st.activeSearches.filter (fun x => !(x == key)) := by
  have hne := lookup_some_not_isEmpty _ _ _ hids
  have hcsc : clearSearchCache st key
      = sremActive (delKey (ids.foldl (fun s i => delKey s ("job-scraping:" ++ i)) st)
          ("search:" ++ key)) key := by
    simp only [clearSearchCache, hne]
    rw [if_neg (by simp), hids]
  rw [hcsc]
  refine ⟨?_, ?_, ?_, ?_⟩
  · rw [hashes_sremActive, lookup_delKey_self]
  · intro i hi
    rw [hashes_sremActive, lookup_delKey_ne _ _ _ (jobKey_ne_searchKey i key),
      foldl_delJobs_lookup]
    rw [if_pos (by simp only [List.any_eq_true]; exact ⟨i, hi, by simp⟩)]
  · intro q hq1 hq2
    rw [hashes_sremActive, lookup_delKey_ne _ _ _ hq1, foldl_delJobs_lookup]
    have hfalse : (ids.any fun i => q == "job-scraping:" ++ i) = false := by
      rw [List.any_eq_false]
      intro i hi
      simpa using hq2 i hi
    rw [hfalse]
    simp
  · rw [sremActive, activeSearches_delKey, foldl_delJobs_active]

/-- C9: on the networked backend a `get` that finds the query index
entry expired is not a pure read: it returns no result and additionally
deletes the index entry, deletes every record hash the entry references,
and removes the fingerprint from the active-query set, so a subsequent
enumeration of active queries no longer contains it. -/
theorem load_expired_destructive (st : RedisState) (key : String) (e now : Nat)
    (ids : List String)
    (hne : (hgetall st ("search:" ++ key)).isEmpty = false)
    (hexp : fromIso (fmGetD (hgetall st ("search:" ++ key)) "expires_at" (.str "")) = some e)
    (hstale : e < now)
    (hids : (hgetall st ("search:" ++ key)).lookup "job_ids" = some (.jlist ids)) :
    loadFromCache now st key = (clearSearchCache st key, none)
    ∧ ((loadFromCache now st key).1.hashes.lookup ("search:" ++ key) = none)
    ∧ (∀ i ∈ ids, (loadFromCache now st key).1.hashes.lookup ("job-scraping:" ++ i) = none)
    ∧ key ∉ (loadFromCache now st key).1.activeSearches := by
  have hload := loadFromCache_stale now st key e hne hexp hstale
  have hspec := clearSearchCache_spec st key ids hids
  refine ⟨hload, ?_, ?_, ?_⟩
  · rw [hload]
    exact hspec.1
  · intro i hi
    rw [hload]
    exact hspec.2.1 i hi
  · rw [hload]
    simp only [hspec.2.2.2]
    simp [List.mem_filter]

/-- A concrete state with one expired index entry referencing one record. -/
def staleState : RedisState :=
  { hashes := [("search:q", [("expires_at", .str "3"), ("job_ids", .jlist ["r1"])]),
               ("job-scraping:r1", [("title", .str "T")])],
    activeSearches := ["q"] }

/-- C9 witness: the destructive expired load at a concrete state (stored
expiry 3, read at time 5). -/
theorem load_expired_destructive_witness :
    loadFromCache 5 staleState "q" = (clearSearchCache staleState "q", none)
    ∧ (loadFromCache 5 staleState "q").1.hashes.lookup ("job-scraping:" ++ "r1") = none
    ∧ "q" ∉ (loadFromCache 5 staleState "q").1.activeSearches := by
  have h := load_expired_destructive staleState "q" 3 5 ["r1"]
    (by decide) (by decide) (by decide) (by decide)
  exact ⟨h.1, h.2.2.1 "r1" (by decide), h.2.2.2⟩

end JobScraper

namespace JobScraper

/-! ## Claim C6: partial per-record write failures -/

/-- The record ids actually written successfully by `save_to_cache`: the
ids of exactly the records whose store write succeeds, in order —
records after a failed one included. -/
def savedJobIds (writeOk : Nat → Bool) (jobs : List JobRecord) : List String :=
  ((jobs.enum).filter (fun p => writeOk p.1)).map (fun p => (withJobId p.2).job_id)

theorem saveFold_ids (now ttl : Nat) (writeOk : Nat → Bool) :
    ∀ (l : List (Nat × JobRecord)) (s : RedisState) (acc : List String),
    (l.foldl (saveStep now ttl writeOk) (s, acc)).2
      = acc ++ (l.filter (fun p => writeOk p.1)).map (fun p => (withJobId p.2).job_id) := by
  intro l
  induction l with
  | nil => intro s acc; simp
  | cons p t ih =>
    intro s acc
    simp only [List.foldl_cons, List.filter_cons, saveStep]
    by_cases hw : writeOk p.1
    · simp only [if_pos hw, List.map_cons]
      rw [ih]
      simp
    · simp only [if_neg hw]
      exact ih s acc

theorem lookup_isSome_hset (st : RedisState) (k : String) (fields : FieldMap) (q : String)
    (h : (st.hashes.lookup q).isSome = true) :
    ((hset st k fields).hashes.lookup q).isSome = true := by
  by_cases hq : q = k
  · subst hq
    simp [hset, lookup_setAssoc_self]
  · simp [hset, lookup_setAssoc_ne _ _ _ _ hq, h]

theorem lookup_isSome_hset_self (st : RedisState) (k : String) (fields : FieldMap) :
    ((hset st k fields).hashes.lookup k).isSome = true := by
  simp [hset, lookup_setAssoc_self]

theorem saveFold_preserves (now ttl : Nat) (writeOk : Nat → Bool) :
    ∀ (l : List (Nat × JobRecord)) (s : RedisState) (acc : List String) (q : String),
    (s.hashes.lookup q).isSome = true →
    ((l.foldl (saveStep now ttl writeOk) (s, acc)).1.hashes.lookup q).isSome = true := by
  intro l
  induction l with
  | nil => intro s acc q h; exact h
  | cons p t ih =>
    intro s acc q h
    simp only [List.foldl_cons, saveStep]
    by_cases hw : writeOk p.1
    · simp only [if_pos hw]
      exact ih _ _ q (lookup_isSome_hset _ _ _ q h)
    · simp only [if_neg hw]
      exact ih _ _ q h

theorem saveFold_written (now ttl : Nat) (writeOk : Nat → Bool) :
    ∀ (l : List (Nat × JobRecord)) (s : RedisState) (acc : List String) (p : Nat × JobRecord),
    p ∈ l → writeOk p.1 = true →
    ((l.foldl (saveStep now ttl writeOk) (s, acc)).1.hashes.lookup
      ("job-scraping:" ++ (withJobId p.2).job_id)).isSome = true := by
  intro l
  induction l with
  | nil => intro s acc p hp _; simp at hp
  | cons hd t ih =>
    intro s acc p hp hw
    rcases List.mem_cons.mp hp with heq | hmem
    · subst heq
      simp only [List.foldl_cons, saveStep, if_pos hw]
      exact saveFold_preserves now ttl writeOk t _ _ _ (lookup_isSome_hset_self _ _ _)
    · simp only [List.foldl_cons, saveStep]
      by_cases hw2 : writeOk hd.1
      · simp only [if_pos hw2]
        exact ih _ _ p hmem hw
      · simp only [if_neg hw2]
        exact ih _ _ p hmem hw

theorem saveToCache_record_present (now ttl : Nat) (writeOk : Nat → Bool) (st : RedisState)
    (key meta : String) (jobs : List JobRecord) :
    ∀ p ∈ jobs.enum, writeOk p.1 = true →
    ((saveToCache now ttl writeOk st key jobs meta).hashes.lookup
      ("job-scraping:" ++ (withJobId p.2).job_id)).isSome = true := by
  intro p hp hw
  simp only [saveToCache]
  rw [hashes_saddActive]
  apply lookup_isSome_hset
  exact saveFold_written now ttl writeOk jobs.enum st [] p hp hw

theorem mergeFields_searchMeta_jobCount (m : FieldMap) (key meta : String) (ids : List String)
    (now ttl : Nat) :
    (mergeFields m (searchMetaFields key ids meta now ttl)).lookup "job_count"
      = some (.str (natStr ids.length)) := by
  rw [lookup_mergeFields]
  rfl

/-- C6: a `save_to_cache` over records some of whose individual writes
fail does not abort — every record after a failed one is still attempted
(the fold continues over all indices), the index entry's `job_ids` lists
exactly the ids of the records actually written successfully (in order),
`job_count` is that number, and every successfully-written record's hash
is present in the store. -/
theorem save_partial_failure_index (now ttl : Nat) (writeOk : Nat → Bool) (st : RedisState)
    (key meta : String) (jobs : List JobRecord) :
    hget (saveToCache now ttl writeOk st key jobs meta) ("search:" ++ key) "job_ids"
      = some (.jlist (savedJobIds writeOk jobs))
    ∧ hget (saveToCache now ttl writeOk st key jobs meta) ("search:" ++ key) "job_count"
      = some (.str (natStr (savedJobIds writeOk jobs).length))
    ∧ (∀ p ∈ jobs.enum, writeOk p.1 = true →
        ((saveToCache now ttl writeOk st key jobs meta).hashes.lookup
          ("job-scraping:" ++ (withJobId p.2).job_id)).isSome = true) := by
  have hids2 : (jobs.enum.foldl (saveStep now ttl writeOk) (st, [])).2
      = savedJobIds writeOk jobs := by
    rw [saveFold_ids]
    simp [savedJobIds]
  refine ⟨?_, ?_, saveToCache_record_present now ttl writeOk st key meta jobs⟩
  · unfold hget
    rw [saveToCache_search_hgetall, mergeFields_searchMeta_jobIds, hids2]
  · unfold hget
    rw [saveToCache_search_hgetall, mergeFields_searchMeta_jobCount, hids2]

/-- A small record for the C6 witness store. -/
def mkJob (i ti : String) : JobRecord :=
  { title := ti, company := "Acme", location := "NY", description := "", requirements := [],
    job_type := "", skills := [], posted_date := "", job_url := "", salary := "",
    category := "", is_trusted_company := false, experience_level := "",
    employment_type := "", job_id := i, remote_work := "No" }

/-- C6 witness: three records, the middle write fails; the index lists
exactly the ids of the first and third, and the third record (after the
failure) was written. -/
theorem save_partial_failure_index_witness :
    hget (saveToCache 0 5 (fun i => !(i == 1)) { hashes := [], activeSearches := [] }
        "k" [mkJob "a" "t1", mkJob "b" "t2", mkJob "c" "t3"] "m")
      ("search:" ++ "k") "job_ids" = some (.jlist ["a", "c"])
    ∧ ((saveToCache 0 5 (fun i => !(i == 1)) { hashes := [], activeSearches := [] }
        "k" [mkJob "a" "t1", mkJob "b" "t2", mkJob "c" "t3"] "m").hashes.lookup
      ("job-scraping:" ++ (withJobId (mkJob "c" "t3")).job_id)).isSome = true := by
  have h := save_partial_failure_index 0 5 (fun i => !(i == 1))
    { hashes := [], activeSearches := [] } "k" "m"
    [mkJob "a" "t1", mkJob "b" "t2", mkJob "c" "t3"]
  constructor
  · rw [h.1]
    decide
  · exact h.2.2 (2, mkJob "c" "t3") (by decide) (by decide)

end JobScraper

namespace JobScraper

/-! ## Claim C8: statistics aggregation -/

theorem mem_insertDesc (x y : String × Nat) (l : List (String × Nat)) :
    y ∈ insertDesc x l ↔ y = x ∨ y ∈ l := by
  induction l with
  | nil => simp [insertDesc]
  | cons z t ih =>
    simp only [insertDesc]
    by_cases hz : z.2 ≤ x.2
    · simp [hz]
    · rw [if_neg hz]
      simp only [List.mem_cons, ih]
      tauto

theorem sorted_insertDesc (x : String × Nat) (l : List (String × Nat))
    (h : l.Pairwise (fun a b => b.2 ≤ a.2)) :
    (insertDesc x l).Pairwise (fun a b => b.2 ≤ a.2) := by
  induction l with
  | nil => simp [insertDesc]
  | cons z t ih =>
    rw [List.pairwise_cons] at h
    simp only [insertDesc]
    by_cases hz : z.2 ≤ x.2
    · rw [if_pos hz]
      rw [List.pairwise_cons]
      refine ⟨?_, by rw [List.pairwise_cons]; exact h⟩
      intro w hw
      rcases List.mem_cons.mp hw with rfl | hwt
      · exact hz
      · exact le_trans (h.1 w hwt) hz
    · rw [if_neg hz]
      rw [List.pairwise_cons]
      refine ⟨?_, ih h.2⟩
      intro w hw
      rcases (mem_insertDesc x w t).mp hw with rfl | hwt
      · omega
      · exact h.1 w hwt

theorem sortDesc_pairwise (l : List (String × Nat)) :
    (sortDesc l).Pairwise (fun a b => b.2 ≤ a.2) := by
  induction l with
  | nil => simp [sortDesc]
  | cons x t ih => exact sorted_insertDesc x (sortDesc t) ih

theorem mem_sortDesc (l : List (String × Nat)) (y : String × Nat) :
    y ∈ sortDesc l ↔ y ∈ l := by
  induction l with
  | nil => simp [sortDesc]
  | cons x t ih =>
    show y ∈ insertDesc x (sortDesc t) ↔ _
    rw [mem_insertDesc, ih]
    simp

theorem lookup_bump_self (l : List (String × Nat)) (k : String) :
    (bump l k).lookup k = some ((l.lookup k).getD 0 + 1) := by
  induction l with
  | nil => simp [bump, List.lookup]
  | cons p t ih =>
    obtain ⟨a, n⟩ := p
    by_cases ha : a = k
    · subst ha
      simp [bump, List.lookup]
    · simp only [bump, if_neg ha, List.lookup]
      have hb : (k == a) = false := by simpa using Ne.symm ha
      rw [hb]
      exact ih

theorem lookup_bump_ne (l : List (String × Nat)) (k q : String) (h : q ≠ k) :
    (bump l k).lookup q = l.lookup q := by
  induction l with
  | nil =>
    simp only [bump, List.lookup]
    rw [show (q == k) = false by simpa using h]
  | cons p t ih =>
    obtain ⟨a, n⟩ := p
    by_cases ha : a = k
    · subst ha
      simp only [bump, if_pos rfl, List.lookup]
      rw [show (q == a) = false by simpa using h]
    · simp only [bump, if_neg ha, List.lookup]
      cases hqa : q == a with
      | true => rfl
      | false => exact ih

theorem keys_bump (l : List (String × Nat)) (k : String) :
    (bump l k).map Prod.fst = if (l.lookup k).isSome then l.map Prod.fst
      else l.map Prod.fst ++ [k] := by
  induction l with
  | nil => simp [bump, List.lookup]
  | cons p t ih =>
    obtain ⟨a, n⟩ := p
    by_cases ha : a = k
    · subst ha
      simp [bump, List.lookup]
    · simp only [bump, if_neg ha, List.map_cons, List.lookup]
      have hb : (k == a) = false := by simpa using Ne.symm ha
      rw [hb, ih]
      by_cases hl : (t.lookup k).isSome <;> simp [hl]

theorem lookup_none_not_mem_keys (l : List (String × Nat)) (k : String)
    (h : l.lookup k = none) : k ∉ l.map Prod.fst := by
  induction l with
  | nil => simp
  | cons p t ih =>
    obtain ⟨a, n⟩ := p
    simp only [List.lookup] at h
    cases hka : k == a with
    | true => rw [hka] at h; simp at h
    | false =>
      rw [hka] at h
      simp only [List.map_cons, List.mem_cons]
      rintro (rfl | hmem)
      · simp at hka
      · exact ih h hmem

theorem nodup_keys_bump (l : List (String × Nat)) (k : String)
    (h : (l.map Prod.fst).Nodup) : ((bump l k).map Prod.fst).Nodup := by
  rw [keys_bump]
  by_cases hl : (l.lookup k).isSome
  · rw [if_pos hl]
    exact h
  · rw [if_neg hl]
    rw [List.nodup_append]
    refine ⟨h, List.nodup_singleton k, ?_⟩
    intro a ha hb
    simp only [List.mem_singleton] at hb
    subst hb
    have hnone : l.lookup a = none := by
      cases hx : l.lookup a with
      | none => rfl
      | some v => exact absurd (by simp [hx]) hl
    exact lookup_none_not_mem_keys l a hnone ha

end JobScraper

namespace JobScraper

theorem lookup_foldl_bump (ks : List String) : ∀ (acc : List (String × Nat)) (k : String),
    ((ks.foldl bump acc).lookup k) =
      match acc.lookup k with
      | some n => some (n + ks.count k)
      | none => if 0 < ks.count k then some (ks.count k) else none := by
  induction ks with
  | nil =>
    intro acc k
    cases h : acc.lookup k <;> simp [h]
  | cons c t ih =>
    intro acc k
    rw [List.foldl_cons, ih]
    by_cases hk : k = c
    · subst hk
      rw [lookup_bump_self, List.count_cons_self]
      cases h : acc.lookup k with
      | some n =>
        simp only [h, Option.getD_some]
        simp only [Option.some.injEq]
        omega
      | none =>
        simp only [h, Option.getD_none]
        rw [if_pos (by omega)]
        simp only [Option.some.injEq]
        omega
    · have hne : k ≠ c := hk
      rw [lookup_bump_ne acc c k hk]
      have hcount : (c :: t).count k = t.count k := by
        rw [List.count_cons]
        simp [hne, Ne.symm hne]
      rw [hcount]

theorem nodup_keys_foldl_bump (ks : List String) :
    ∀ acc : List (String × Nat), ((acc.map Prod.fst).Nodup) →
    (((ks.foldl bump acc).map Prod.fst)).Nodup := by
  induction ks with
  | nil => intro acc h; exact h
  | cons c t ih => intro acc h; exact ih _ (nodup_keys_bump acc c h)

theorem mem_of_lookup_eq (l : List (String × Nat)) (k : String) (n : Nat)
    (h : l.lookup k = some n) : (k, n) ∈ l := by
  induction l with
  | nil => simp [List.lookup] at h
  | cons p t ih =>
    obtain ⟨a, b⟩ := p
    simp only [List.lookup] at h
    cases hka : k == a with
    | true =>
      rw [hka] at h
      simp only [Option.some.injEq] at h
      have hk : k = a := by simpa using hka
      subst hk
      subst h
      simp
    | false =>
      rw [hka] at h
      exact List.mem_cons_of_mem _ (ih h)

theorem lookup_eq_of_mem_nodup (l : List (String × Nat)) (k : String) (n : Nat)
    (hnd : (l.map Prod.fst).Nodup) (h : (k, n) ∈ l) : l.lookup k = some n := by
  induction l with
  | nil => simp at h
  | cons p t ih =>
    obtain ⟨a, b⟩ := p
    simp only [List.map_cons, List.nodup_cons] at hnd
    rcases List.mem_cons.mp h with heq | hmem
    · injection heq with h1 h2
      subst h1
      subst h2
      simp [List.lookup]
    · have hka : k ≠ a := by
        intro hcontr
        subst hcontr
        exact hnd.1 (by simpa using List.mem_map_of_mem Prod.fst hmem)
      simp only [List.lookup]
      rw [show (k == a) = false by simpa using hka]
      exact ih hnd.2 hmem

/-- Membership in a tally (fold of the dictionary bump over a key list)
is exactly "positive count of that key". -/
theorem mem_tally (ks : List String) (k : String) (n : Nat) :
    ((k, n) ∈ ks.foldl bump []) ↔ (0 < n ∧ ks.count k = n) := by
  constructor
  · intro h
    have hl := lookup_eq_of_mem_nodup _ _ _ (nodup_keys_foldl_bump ks [] (by simp)) h
    rw [lookup_foldl_bump] at hl
    simp only [List.lookup] at hl
    by_cases hc : 0 < ks.count k
    · rw [if_pos hc] at hl
      simp only [Option.some.injEq] at hl
      omega
    · rw [if_neg hc] at hl
      simp at hl
  · rintro ⟨hn, hc⟩
    apply mem_of_lookup_eq
    rw [lookup_foldl_bump]
    simp only [List.lookup]
    rw [if_pos (by omega), hc]

/-- Sorted-tally membership: exactly the keys with positive count, paired
with their counts. -/
theorem mem_sortDesc_tally (ks : List String) (k : String) (n : Nat) :
    ((k, n) ∈ sortDesc (ks.foldl bump [])) ↔ (0 < n ∧ ks.count k = n) := by
  rw [mem_sortDesc]
  exact mem_tally ks k n

end JobScraper

namespace JobScraper

theorem statsFold_by_company (ms : List FieldMap) : ∀ s : JobStats,
    ((ms.foldl statsStep s).by_company)
      = (ms.map (fun m => (fmGetD m "company" (.str "Unknown")).asString)).foldl bump
          s.by_company := by
  induction ms with
  | nil => intro s; rfl
  | cons m t ih => intro s; exact ih (statsStep s m)

theorem statsFold_by_location (ms : List FieldMap) : ∀ s : JobStats,
    ((ms.foldl statsStep s).by_location)
      = (ms.map (fun m => (fmGetD m "location" (.str "Unknown")).asString)).foldl bump
          s.by_location := by
  induction ms with
  | nil => intro s; rfl
  | cons m t ih => intro s; exact ih (statsStep s m)

theorem statsFold_by_job_type (ms : List FieldMap) : ∀ s : JobStats,
    ((ms.foldl statsStep s).by_job_type)
      = (ms.map (fun m => (fmGetD m "job_type" (.str "Unknown")).asString)).foldl bump
          s.by_job_type := by
  induction ms with
  | nil => intro s; rfl
  | cons m t ih => intro s; exact ih (statsStep s m)

theorem statsFold_by_category (ms : List FieldMap) : ∀ s : JobStats,
    ((ms.foldl statsStep s).by_category)
      = (ms.map (fun m => (fmGetD m "category" (.str "Unknown")).asString)).foldl bump
          s.by_category := by
  induction ms with
  | nil => intro s; rfl
  | cons m t ih => intro s; exact ih (statsStep s m)

theorem statsFold_by_experience (ms : List FieldMap) : ∀ s : JobStats,
    ((ms.foldl statsStep s).by_experience_level)
      = (ms.map (fun m => (fmGetD m "experience_level" (.str "Unknown")).asString)).foldl bump
          s.by_experience_level := by
  induction ms with
  | nil => intro s; rfl
  | cons m t ih => intro s; exact ih (statsStep s m)

theorem statsFold_total (ms : List FieldMap) : ∀ s : JobStats,
    (ms.foldl statsStep s).total_jobs = s.total_jobs + ms.length := by
  induction ms with
  | nil => intro s; rfl
  | cons m t ih =>
    intro s
    rw [List.foldl_cons, ih (statsStep s m)]
    show s.total_jobs + 1 + t.length = s.total_jobs + (t.length + 1)
    omega

theorem statsFold_remote_yes (ms : List FieldMap) : ∀ s : JobStats,
    (ms.foldl statsStep s).remote_yes
      = s.remote_yes + ms.countP (fun m => (fmGetD m "remote" (.str "No")).asString == "Yes") := by
  induction ms with
  | nil => intro s; rfl
  | cons m t ih =>
    intro s
    rw [List.foldl_cons, ih (statsStep s m), List.countP_cons]
    by_cases hm : (fmGetD m "remote" (.str "No")).asString = "Yes"
    · show s.remote_yes + (if (fmGetD m "remote" (.str "No")).asString = "Yes" then 1 else 0)
          + _ = _
      simp [hm]
      omega
    · show s.remote_yes + (if (fmGetD m "remote" (.str "No")).asString = "Yes" then 1 else 0)
          + _ = _
      simp [hm]

theorem statsFold_remote_no (ms : List FieldMap) : ∀ s : JobStats,
    (ms.foldl statsStep s).remote_no
      = s.remote_no + ms.countP (fun m => (fmGetD m "remote" (.str "No")).asString == "No") := by
  induction ms with
  | nil => intro s; rfl
  | cons m t ih =>
    intro s
    rw [List.foldl_cons, ih (statsStep s m), List.countP_cons]
    by_cases hm : (fmGetD m "remote" (.str "No")).asString = "No"
    · show s.remote_no + (if (fmGetD m "remote" (.str "No")).asString = "No" then 1 else 0)
          + _ = _
      simp [hm]
      omega
    · show s.remote_no + (if (fmGetD m "remote" (.str "No")).asString = "No" then 1 else 0)
          + _ = _
      simp [hm]

theorem statsFold_remote_hybrid (ms : List FieldMap) : ∀ s : JobStats,
    (ms.foldl statsStep s).remote_hybrid
      = s.remote_hybrid
        + ms.countP (fun m => (fmGetD m "remote" (.str "No")).asString == "Hybrid") := by
  induction ms with
  | nil => intro s; rfl
  | cons m t ih =>
    intro s
    rw [List.foldl_cons, ih (statsStep s m), List.countP_cons]
    by_cases hm : (fmGetD m "remote" (.str "No")).asString = "Hybrid"
    · show s.remote_hybrid
          + (if (fmGetD m "remote" (.str "No")).asString = "Hybrid" then 1 else 0) + _ = _
      simp [hm]
      omega
    · show s.remote_hybrid
          + (if (fmGetD m "remote" (.str "No")).asString = "Hybrid" then 1 else 0) + _ = _
      simp [hm]

theorem statsFold_trusted (ms : List FieldMap) : ∀ s : JobStats,
    (ms.foldl statsStep s).trusted_companies
      = s.trusted_companies
        + ms.countP
            (fun m => (fmGetD m "is_trusted_company" (.str "False")).asString == "True") := by
  induction ms with
  | nil => intro s; rfl
  | cons m t ih =>
    intro s
    rw [List.foldl_cons, ih (statsStep s m), List.countP_cons]
    by_cases hm : (fmGetD m "is_trusted_company" (.str "False")).asString = "True"
    · show s.trusted_companies
          + (if (fmGetD m "is_trusted_company" (.str "False")).asString = "True" then 1 else 0)
          + _ = _
      simp [hm]
      omega
    · show s.trusted_companies
          + (if (fmGetD m "is_trusted_company" (.str "False")).asString = "True" then 1 else 0)
          + _ = _
      simp [hm]

end JobScraper

namespace JobScraper

/-- Three stored records, companies Acme, Acme, Beta (C8 scenario). -/
def acmeState : RedisState :=
  { hashes := [("job-scraping:1", [("company", .str "Acme")]),
               ("job-scraping:2", [("company", .str "Acme")]),
               ("job-scraping:3", [("company", .str "Beta")])],
    activeSearches := [] }

/-- C8 counterexample: the claim quantifies over every set of stored
records, but on the empty store the key scan is empty and
`get_job_statistics` early-returns the reduced dict with only the total
(`return` at `redis_cache.py` lines 423-424, modelled `none`): no
groupings, no Yes/No/Hybrid tally, no trusted count are returned there,
so the claimed output shape fails at the empty set of stored records. -/
theorem statistics_empty_store_cex :
    getJobStatistics { hashes := [], activeSearches := [] } = none
    ∧ (keysWithPrefix { hashes := [], activeSearches := [] } "job-scraping:").isEmpty
        = true := by decide

/-- C8 (amended): for every store whose record-key scan is nonempty,
`get_job_statistics` returns a statistics record over the live stored
record hashes: the total record count; groupings by company, location,
job type, category and experience level, each sorted in descending order
of count, whose entries are exactly the occurring keys paired with their
occurrence counts; the three-way Yes/No/Hybrid remote tally; and the
trusted-company count.  (On an empty scan the code instead early-returns
only the reduced total-zero dict — see the counterexample.)  The
function is a pure read of the store by construction (it returns only
the statistics record).  For three records with companies Acme, Acme,
Beta, `by_company` is `[("Acme", 2), ("Beta", 1)]` in descending
order. -/
theorem statistics_aggregate (st : RedisState)
    (h : (keysWithPrefix st "job-scraping:").isEmpty = false) :
    ∃ s : JobStats, getJobStatistics st = some s
    ∧ s.total_jobs = (liveJobMaps st).length
    ∧ (s.by_company.Pairwise (fun a b => b.2 ≤ a.2)
        ∧ s.by_location.Pairwise (fun a b => b.2 ≤ a.2)
        ∧ s.by_job_type.Pairwise (fun a b => b.2 ≤ a.2)
        ∧ s.by_category.Pairwise (fun a b => b.2 ≤ a.2)
        ∧ s.by_experience_level.Pairwise (fun a b => b.2 ≤ a.2))
    ∧ (∀ c n, (c, n) ∈ s.by_company ↔ (0 < n ∧
        ((liveJobMaps st).map
          (fun m => (fmGetD m "company" (.str "Unknown")).asString)).count c = n))
    ∧ (∀ c n, (c, n) ∈ s.by_location ↔ (0 < n ∧
        ((liveJobMaps st).map
          (fun m => (fmGetD m "location" (.str "Unknown")).asString)).count c = n))
    ∧ (∀ c n, (c, n) ∈ s.by_job_type ↔ (0 < n ∧
        ((liveJobMaps st).map
          (fun m => (fmGetD m "job_type" (.str "Unknown")).asString)).count c = n))
    ∧ (∀ c n, (c, n) ∈ s.by_category ↔ (0 < n ∧
        ((liveJobMaps st).map
          (fun m => (fmGetD m "category" (.str "Unknown")).asString)).count c = n))
    ∧ (∀ c n, (c, n) ∈ s.by_experience_level ↔ (0 < n ∧
        ((liveJobMaps st).map
          (fun m => (fmGetD m "experience_level" (.str "Unknown")).asString)).count c = n))
    ∧ s.remote_yes
        = (liveJobMaps st).countP (fun m => (fmGetD m "remote" (.str "No")).asString == "Yes")
    ∧ s.remote_no
        = (liveJobMaps st).countP (fun m => (fmGetD m "remote" (.str "No")).asString == "No")
    ∧ s.remote_hybrid
        = (liveJobMaps st).countP
            (fun m => (fmGetD m "remote" (.str "No")).asString == "Hybrid")
    ∧ s.trusted_companies
        = (liveJobMaps st).countP
            (fun m => (fmGetD m "is_trusted_company" (.str "False")).asString == "True")
    ∧ (getJobStatistics acmeState).map JobStats.by_company
        = some [("Acme", 2), ("Beta", 1)] := by
  simp only [getJobStatistics]
  rw [if_neg (by simp [h])]
  refine ⟨_, rfl, ?_, ⟨?_, ?_, ?_, ?_, ?_⟩, ?_, ?_, ?_, ?_, ?_, ?_, ?_, ?_, ?_, by decide⟩
  · rw [show (((liveJobMaps st).foldl statsStep statsInit).total_jobs : Nat)
        = (liveJobMaps st).length from by rw [statsFold_total]; simp [statsInit]]
  · exact sortDesc_pairwise _
  · exact sortDesc_pairwise _
  · exact sortDesc_pairwise _
  · exact sortDesc_pairwise _
  · exact sortDesc_pairwise _
  · intro c n
    show (c, n) ∈ sortDesc (((liveJobMaps st).foldl statsStep statsInit).by_company) ↔ _
    rw [statsFold_by_company]
    exact mem_sortDesc_tally _ c n
  · intro c n
    show (c, n) ∈ sortDesc (((liveJobMaps st).foldl statsStep statsInit).by_location) ↔ _
    rw [statsFold_by_location]
    exact mem_sortDesc_tally _ c n
  · intro c n
    show (c, n) ∈ sortDesc (((liveJobMaps st).foldl statsStep statsInit).by_job_type) ↔ _
    rw [statsFold_by_job_type]
    exact mem_sortDesc_tally _ c n
  · intro c n
    show (c, n) ∈ sortDesc (((liveJobMaps st).foldl statsStep statsInit).by_category) ↔ _
    rw [statsFold_by_category]
    exact mem_sortDesc_tally _ c n
  · intro c n
    show (c, n) ∈ sortDesc (((liveJobMaps st).foldl statsStep statsInit).by_experience_level)
        ↔ _
    rw [statsFold_by_experience]
    exact mem_sortDesc_tally _ c n
  · rw [show (((liveJobMaps st).foldl statsStep statsInit).remote_yes : Nat)
        = _ from statsFold_remote_yes _ statsInit]
    simp [statsInit]
  · rw [show (((liveJobMaps st).foldl statsStep statsInit).remote_no : Nat)
        = _ from statsFold_remote_no _ statsInit]
    simp [statsInit]
  · rw [show (((liveJobMaps st).foldl statsStep statsInit).remote_hybrid : Nat)
        = _ from statsFold_remote_hybrid _ statsInit]
    simp [statsInit]
  · rw [show (((liveJobMaps st).foldl statsStep statsInit).trusted_companies : Nat)
        = _ from statsFold_trusted _ statsInit]
    simp [statsInit]

/-- C8 witness: the aggregation at the concrete Acme/Acme/Beta store. -/
theorem statistics_aggregate_witness :
    (getJobStatistics acmeState).isSome = true := by
  obtain ⟨s, hs, _⟩ := statistics_aggregate acmeState (by decide)
  rw [hs]
  rfl

end JobScraper

namespace JobScraper

/-! ## Claim C1: the expiry sweep `clear_expired_cache` -/

theorem string_append_left_cancel {p a b : String} (h : p ++ a = p ++ b) : a = b := by
  have hd := congrArg String.data h
  rw [String.data_append, String.data_append] at hd
  exact string_data_inj (List.append_cancel_left hd)

theorem searchKey_inj {a b : String} (h : "search:" ++ a = "search:" ++ b) : a = b :=
  string_append_left_cancel h

theorem jobKey_inj {a b : String} (h : "job-scraping:" ++ a = "job-scraping:" ++ b) : a = b :=
  string_append_left_cancel h

theorem lookup_some_mem_keys {β : Type} (l : List (String × β)) (q : String) (v : β)
    (h : l.lookup q = some v) : q ∈ l.map Prod.fst := by
  induction l with
  | nil => simp [List.lookup] at h
  | cons p t ih =>
    obtain ⟨a, b⟩ := p
    simp only [List.lookup] at h
    cases hqa : q == a with
    | true =>
      have : q = a := by simpa using hqa
      simp [this]
    | false =>
      rw [hqa] at h
      simp only [List.map_cons, List.mem_cons]
      exact Or.inr (ih h)

theorem lookup_delKey_none_mono (st : RedisState) (k q : String)
    (h : st.hashes.lookup q = none) : (delKey st k).hashes.lookup q = none := by
  by_cases hq : q = k
  · rw [hq]
    exact lookup_delKey_self st k
  · rw [lookup_delKey_ne st k q hq]
    exact h

theorem foldl_delJobs_none_mono (ids : List String) : ∀ (st : RedisState) (q : String),
    st.hashes.lookup q = none →
    (ids.foldl (fun s i => delKey s ("job-scraping:" ++ i)) st).hashes.lookup q = none := by
  induction ids with
  | nil => intro st q h; exact h
  | cons i t ih =>
    intro st q h
    exact ih _ q (lookup_delKey_none_mono st _ q h)

theorem clearSearchCache_none_mono (st : RedisState) (k q : String)
    (h : st.hashes.lookup q = none) : (clearSearchCache st k).hashes.lookup q = none := by
  simp only [clearSearchCache]
  cases hm : (if (hgetall st ("search:" ++ k)).isEmpty = true
      then none else (hgetall st ("search:" ++ k)).lookup "job_ids") with
  | none =>
    rw [hashes_sremActive]
    exact lookup_delKey_none_mono _ _ _ h
  | some v =>
    cases v with
    | str s => exact h
    | jlist ids =>
      rw [hashes_sremActive]
      exact lookup_delKey_none_mono _ _ _ (foldl_delJobs_none_mono ids st q h)

theorem foldl_clearSearch_none_mono (E : List String) : ∀ (st : RedisState) (q : String),
    st.hashes.lookup q = none →
    (E.foldl clearSearchCache st).hashes.lookup q = none := by
  induction E with
  | nil => intro st q h; exact h
  | cons k t ih =>
    intro st q h
    exact ih _ q (clearSearchCache_none_mono st k q h)

/-- Decidable well-formedness of an index entry: its `job_ids` field
holds a JSON list. -/
def hasJlistJobIds (st : RedisState) (k : String) : Bool :=
  match (hgetall st ("search:" ++ k)).lookup "job_ids" with
  | some (.jlist _) => true
  | _ => false

theorem hasJlistJobIds_elim (st : RedisState) (k : String)
    (h : hasJlistJobIds st k = true) :
    ∃ ids : List String,
      (hgetall st ("search:" ++ k)).lookup "job_ids" = some (.jlist ids) := by
  unfold hasJlistJobIds at h
  cases hm : (hgetall st ("search:" ++ k)).lookup "job_ids" with
  | none => rw [hm] at h; simp at h
  | some v =>
    cases v with
    | str s => rw [hm] at h; simp at h
    | jlist ids => exact ⟨ids, rfl⟩

theorem foldl_delKey_lookup (L : List String) : ∀ (st : RedisState) (q : String),
    (L.foldl delKey st).hashes.lookup q
      = if q ∈ L then none else st.hashes.lookup q := by
  induction L with
  | nil => intro st q; simp
  | cons k t ih =>
    intro st q
    rw [List.foldl_cons, ih]
    by_cases hq : q = k
    · subst hq
      simp [lookup_delKey_self]
    · by_cases hqt : q ∈ t
      · simp [hqt, hq]
      · simp only [if_neg hqt, List.mem_cons]
        rw [if_neg (by tauto), lookup_delKey_ne st k q hq]

theorem foldl_delKey_active (L : List String) : ∀ st : RedisState,
    (L.foldl delKey st).activeSearches = st.activeSearches := by
  induction L with
  | nil => intro st; rfl
  | cons k t ih => intro st; rw [List.foldl_cons, ih, activeSearches_delKey]

theorem mem_keysWithPrefix (st : RedisState) (p q : String) :
    q ∈ keysWithPrefix st p
      ↔ q ∈ st.hashes.map Prod.fst ∧ p.data.isPrefixOf q.data = true := by
  unfold keysWithPrefix
  rw [List.mem_filter]

theorem searchKey_no_jobPrefix (k : String) :
    ("job-scraping:").data.isPrefixOf ("search:" ++ k).data = false := by
  rw [String.data_append]
  rfl

theorem isPrefixOf_append (l r : List Char) : l.isPrefixOf (l ++ r) = true := by
  induction l with
  | nil => simp [List.isPrefixOf]
  | cons a t ih => simp [List.isPrefixOf, ih]

theorem jobKey_jobPrefix (i : String) :
    ("job-scraping:").data.isPrefixOf ("job-scraping:" ++ i).data = true := by
  rw [String.data_append]
  exact isPrefixOf_append ("job-scraping:").data i.data

end JobScraper

namespace JobScraper

theorem clearSearchCache_hgetall_other_search (st : RedisState) (k0 : String)
    (ids0 : List String)
    (hids0 : (hgetall st ("search:" ++ k0)).lookup "job_ids" = some (.jlist ids0))
    (k : String) (hk : k ≠ k0) :
    hgetall (clearSearchCache st k0) ("search:" ++ k) = hgetall st ("search:" ++ k) := by
  have hspec := clearSearchCache_spec st k0 ids0 hids0
  unfold hgetall
  rw [hspec.2.2.1 ("search:" ++ k)
    (fun hcontr => hk (searchKey_inj hcontr))
    (fun i _ hcontr => jobKey_ne_searchKey i k hcontr.symm)]

theorem foldl_clearSearch_frame (E : List String) : ∀ st : RedisState, E.Nodup →
    (∀ k ∈ E, hasJlistJobIds st k = true) →
    ∀ q : String,
    (∀ k ∈ E, q ≠ "search:" ++ k) →
    (∀ k ∈ E, ∀ ids, (hgetall st ("search:" ++ k)).lookup "job_ids" = some (.jlist ids) →
      ∀ i ∈ ids, q ≠ "job-scraping:" ++ i) →
    (E.foldl clearSearchCache st).hashes.lookup q = st.hashes.lookup q := by
  induction E with
  | nil => intro st _ _ q _ _; rfl
  | cons k0 E' ih =>
    intro st hnd hwf q hq1 hq2
    rw [List.foldl_cons]
    obtain ⟨ids0, hids0⟩ := hasJlistJobIds_elim st k0 (hwf k0 (by simp))
    have hspec := clearSearchCache_spec st k0 ids0 hids0
    have hstep : (clearSearchCache st k0).hashes.lookup q = st.hashes.lookup q :=
      hspec.2.2.1 q (hq1 k0 (by simp)) (hq2 k0 (by simp) ids0 hids0)
    have hknd := List.nodup_cons.mp hnd
    have hsearch : ∀ k ∈ E', hgetall (clearSearchCache st k0) ("search:" ++ k)
        = hgetall st ("search:" ++ k) := by
      intro k hk
      refine clearSearchCache_hgetall_other_search st k0 ids0 hids0 k ?_
      intro hcontr
      subst hcontr
      exact hknd.1 hk
    have hwf' : ∀ k ∈ E', hasJlistJobIds (clearSearchCache st k0) k = true := by
      intro k hk
      have h2 := hwf k (by simp [hk])
      unfold hasJlistJobIds at h2 ⊢
      rw [hsearch k hk]
      exact h2
    rw [ih (clearSearchCache st k0) hknd.2 hwf' q
      (fun k hk => hq1 k (by simp [hk]))
      (fun k hk ids hids i hi => by
        rw [hsearch k hk] at hids
        exact hq2 k (by simp [hk]) ids hids i hi)]
    exact hstep

theorem foldl_delKey_none_mono (L : List String) : ∀ (st : RedisState) (q : String),
    st.hashes.lookup q = none → (L.foldl delKey st).hashes.lookup q = none := by
  induction L with
  | nil => intro st q h; exact h
  | cons k t ih =>
    intro st q h
    exact ih _ q (lookup_delKey_none_mono st k q h)

theorem foldl_clearSearch_deleted (E : List String) : ∀ st : RedisState, E.Nodup →
    (∀ k ∈ E, hasJlistJobIds st k = true) →
    ∀ k ∈ E,
      ((E.foldl clearSearchCache st).hashes.lookup ("search:" ++ k) = none)
      ∧ (∀ ids, (hgetall st ("search:" ++ k)).lookup "job_ids" = some (.jlist ids) →
          ∀ i ∈ ids,
            (E.foldl clearSearchCache st).hashes.lookup ("job-scraping:" ++ i) = none) := by
  induction E with
  | nil => intro st _ _ k hk; simp at hk
  | cons k0 E' ih =>
    intro st hnd hwf k hk
    rw [List.foldl_cons]
    obtain ⟨ids0, hids0⟩ := hasJlistJobIds_elim st k0 (hwf k0 (by simp))
    have hspec := clearSearchCache_spec st k0 ids0 hids0
    have hknd := List.nodup_cons.mp hnd
    have hsearch : ∀ k2 ∈ E', hgetall (clearSearchCache st k0) ("search:" ++ k2)
        = hgetall st ("search:" ++ k2) := by
      intro k2 hk2
      refine clearSearchCache_hgetall_other_search st k0 ids0 hids0 k2 ?_
      intro hcontr
      subst hcontr
      exact hknd.1 hk2
    have hwf' : ∀ k2 ∈ E', hasJlistJobIds (clearSearchCache st k0) k2 = true := by
      intro k2 hk2
      have h2 := hwf k2 (by simp [hk2])
      unfold hasJlistJobIds at h2 ⊢
      rw [hsearch k2 hk2]
      exact h2
    rcases List.mem_cons.mp hk with rfl | hkE'
    · refine ⟨foldl_clearSearch_none_mono E' _ _ hspec.1, ?_⟩
      intro ids hids i hi
      have hids_eq : ids = ids0 := by
        rw [hids0] at hids
        exact (by simpa using hids : ids0 = ids).symm
      subst hids_eq
      exact foldl_clearSearch_none_mono E' _ _ (hspec.2.1 i hi)
    · have hdel := ih (clearSearchCache st k0) hknd.2 hwf' k hkE'
      refine ⟨hdel.1, ?_⟩
      intro ids hids i hi
      refine hdel.2 ids ?_ i hi
      rw [hsearch k hkE']
      exact hids

theorem foldl_clearSearch_active (E : List String) : ∀ st : RedisState, E.Nodup →
    (∀ k ∈ E, hasJlistJobIds st k = true) →
    (E.foldl clearSearchCache st).activeSearches
      = st.activeSearches.filter (fun x => !(decide (x ∈ E))) := by
  induction E with
  | nil =>
    intro st _ _
    simp
  | cons k0 E' ih =>
    intro st hnd hwf
    rw [List.foldl_cons]
    obtain ⟨ids0, hids0⟩ := hasJlistJobIds_elim st k0 (hwf k0 (by simp))
    have hspec := clearSearchCache_spec st k0 ids0 hids0
    have hknd := List.nodup_cons.mp hnd
    have hsearch : ∀ k2 ∈ E', hgetall (clearSearchCache st k0) ("search:" ++ k2)
        = hgetall st ("search:" ++ k2) := by
      intro k2 hk2
      refine clearSearchCache_hgetall_other_search st k0 ids0 hids0 k2 ?_
      intro hcontr
      subst hcontr
      exact hknd.1 hk2
    have hwf' : ∀ k2 ∈ E', hasJlistJobIds (clearSearchCache st k0) k2 = true := by
      intro k2 hk2
      have h2 := hwf k2 (by simp [hk2])
      unfold hasJlistJobIds at h2 ⊢
      rw [hsearch k2 hk2]
      exact h2
    rw [ih (clearSearchCache st k0) hknd.2 hwf', hspec.2.2.2, List.filter_filter]
    apply List.filter_congr
    intro x _
    by_cases h1 : x = k0 <;> by_cases h2 : x ∈ E' <;> simp [h1, h2]

end JobScraper

namespace JobScraper

/-- A cache state with a fresh entry `F` and an expired entry `E` that
share the record `r`; the record itself carries no `expires_at` field, so
the job-hash sweep would keep it. -/
def sharedRecordState : RedisState :=
  { hashes := [("search:F", [("expires_at", .str "10"), ("job_ids", .jlist ["r"])]),
               ("search:E", [("expires_at", .str "1"), ("job_ids", .jlist ["r"])]),
               ("job-scraping:r", [("title", .str "T")])],
    activeSearches := ["F", "E"] }

/-- C1 counterexample: at time 5, entry `F` (expiry 10) is fresh and
references record `r`, which is also referenced by the expired entry `E`
(expiry 1) and is not itself expired; `clear(expired_only=True)`
nevertheless deletes `r` — clearing `E` deletes every record it names
with no reference counting — while leaving the fresh entry `F` intact.
So a record that a fresh entry shares with an expired entry is NOT still
present afterwards. -/
theorem clearExpired_shared_record_cex :
    searchEntryExpired 5 sharedRecordState "F" = false
    ∧ searchEntryExpired 5 sharedRecordState "E" = true
    ∧ hget sharedRecordState "search:F" "job_ids" = some (.jlist ["r"])
    ∧ (sharedRecordState.hashes.lookup "job-scraping:r").isSome = true
    ∧ jobKeyExpired 5 sharedRecordState "job-scraping:r" = false
    ∧ (clearExpiredCache 5 sharedRecordState).hashes.lookup "job-scraping:r" = none
    ∧ (clearExpiredCache 5 sharedRecordState).hashes.lookup "search:F"
        = sharedRecordState.hashes.lookup "search:F" := by decide

/-- C1 (amended): for every cache state whose active-query set has no
duplicates and whose expired index entries carry well-formed `job_ids`
lists, `clear(expired_only=True)` (`clear_expired_cache`) behaves as
follows.  (1) Every fresh (non-expired) index entry is still present and
unchanged, and stays in the active-query set.  (2) Every expired index
entry is deleted, its fingerprint is removed from the active-query set,
and every record it references is deleted.  (3) A stored record that is
NOT referenced by any expired entry survives unchanged exactly when its
own `expires_at` has not passed, and is deleted by the job-hash sweep
when it has.  In particular a record referenced by a fresh entry is
deleted whenever an expired entry also references it (no reference
counting) or its own expiry has passed — only records referenced solely
by fresh entries and themselves unexpired are guaranteed to survive. -/
theorem clear_expired_frame_amended (now : Nat) (st : RedisState)
    (hnd : st.activeSearches.Nodup)
    (hwf : ∀ k ∈ st.activeSearches, searchEntryExpired now st k = true →
        hasJlistJobIds st k = true) :
    (∀ k ∈ st.activeSearches, searchEntryExpired now st k = false →
      ((clearExpiredCache now st).hashes.lookup ("search:" ++ k)
          = st.hashes.lookup ("search:" ++ k)
        ∧ k ∈ (clearExpiredCache now st).activeSearches))
    ∧ (∀ k ∈ st.activeSearches, searchEntryExpired now st k = true →
      ((clearExpiredCache now st).hashes.lookup ("search:" ++ k) = none
        ∧ k ∉ (clearExpiredCache now st).activeSearches
        ∧ ∀ ids : List String,
            (hgetall st ("search:" ++ k)).lookup "job_ids" = some (.jlist ids) →
            ∀ i ∈ ids,
              (clearExpiredCache now st).hashes.lookup ("job-scraping:" ++ i) = none))
    ∧ (∀ (i : String) (m : FieldMap),
        st.hashes.lookup ("job-scraping:" ++ i) = some m →
        (¬ ∃ k ∈ st.activeSearches, searchEntryExpired now st k = true ∧
            ∃ ids, (hgetall st ("search:" ++ k)).lookup "job_ids" = some (.jlist ids)
              ∧ i ∈ ids) →
        ((jobKeyExpired now st ("job-scraping:" ++ i) = false →
            (clearExpiredCache now st).hashes.lookup ("job-scraping:" ++ i) = some m)
          ∧ (jobKeyExpired now st ("job-scraping:" ++ i) = true →
            (clearExpiredCache now st).hashes.lookup ("job-scraping:" ++ i) = none))) := by
  have hEnd : (st.activeSearches.filter (searchEntryExpired now st)).Nodup := hnd.filter _
  have hEwf : ∀ k ∈ st.activeSearches.filter (searchEntryExpired now st),
      hasJlistJobIds st k = true := by
    intro k hk
    have hmf := List.mem_filter.mp hk
    exact hwf k hmf.1 hmf.2
  have hdef : clearExpiredCache now st
      = ((keysWithPrefix
            ((st.activeSearches.filter (searchEntryExpired now st)).foldl clearSearchCache st)
            "job-scraping:").filter
          (jobKeyExpired now
            ((st.activeSearches.filter (searchEntryExpired now st)).foldl
              clearSearchCache st))).foldl delKey
        ((st.activeSearches.filter (searchEntryExpired now st)).foldl clearSearchCache st) :=
    rfl
  rw [hdef]
  generalize hE : st.activeSearches.filter (searchEntryExpired now st) = E at hEnd hEwf
  generalize hst1 : E.foldl clearSearchCache st = st1
  generalize hL : (keysWithPrefix st1 "job-scraping:").filter (jobKeyExpired now st1) = L
  have hactive1 : st1.activeSearches
      = st.activeSearches.filter (fun x => !(decide (x ∈ E))) := by
    rw [← hst1]
    exact foldl_clearSearch_active E st hEnd hEwf
  refine ⟨?_, ?_, ?_⟩
  · intro k hk hfresh
    have hkE : k ∉ E := by
      rw [← hE]
      intro hcontr
      have := (List.mem_filter.mp hcontr).2
      rw [hfresh] at this
      simp at this
    constructor
    · have hq1 : ∀ k2 ∈ E, ("search:" ++ k) ≠ ("search:" ++ k2) := by
        intro k2 hk2 hcontr
        have hkk : k = k2 := searchKey_inj hcontr
        subst hkk
        exact hkE hk2
      have hfr := foldl_clearSearch_frame E st hEnd hEwf ("search:" ++ k) hq1
        (fun k2 _ ids _ i _ hc => jobKey_ne_searchKey i k hc.symm)
      rw [hst1] at hfr
      have hnotL : ("search:" ++ k) ∉ L := by
        rw [← hL]
        intro hmem
        have hpref := ((mem_keysWithPrefix st1 _ _).mp (List.mem_filter.mp hmem).1).2
        rw [searchKey_no_jobPrefix] at hpref
        simp at hpref
      rw [foldl_delKey_lookup, if_neg hnotL]
      exact hfr
    · rw [foldl_delKey_active, hactive1, List.mem_filter]
      exact ⟨hk, by simp [hkE]⟩
  · intro k hk hexp
    have hkE : k ∈ E := by
      rw [← hE]
      exact List.mem_filter.mpr ⟨hk, hexp⟩
    have hdel := foldl_clearSearch_deleted E st hEnd hEwf k hkE
    rw [hst1] at hdel
    refine ⟨?_, ?_, ?_⟩
    · exact foldl_delKey_none_mono L st1 _ hdel.1
    · rw [foldl_delKey_active, hactive1, List.mem_filter]
      simp [hkE]
    · intro ids hids i hi
      exact foldl_delKey_none_mono L st1 _ (hdel.2 ids hids i hi)
  · intro i m hm hnoref
    have hq2 : ∀ k ∈ E, ∀ ids,
        (hgetall st ("search:" ++ k)).lookup "job_ids" = some (.jlist ids) →
        ∀ i2 ∈ ids, ("job-scraping:" ++ i) ≠ "job-scraping:" ++ i2 := by
      intro k hkE ids hids i2 hi2 hcontr
      have hii : i = i2 := jobKey_inj hcontr
      rw [← hE] at hkE
      have hmf := List.mem_filter.mp hkE
      exact hnoref ⟨k, hmf.1, hmf.2, ids, hids, by rw [hii]; exact hi2⟩
    have hfr := foldl_clearSearch_frame E st hEnd hEwf ("job-scraping:" ++ i)
      (fun k2 _ => jobKey_ne_searchKey i k2) hq2
    rw [hst1] at hfr
    have hst1m : st1.hashes.lookup ("job-scraping:" ++ i) = some m := by
      rw [hfr]
      exact hm
    have hcongr : jobKeyExpired now st1 ("job-scraping:" ++ i)
        = jobKeyExpired now st ("job-scraping:" ++ i) := by
      unfold jobKeyExpired hget hgetall
      rw [hst1m, hm]
    refine ⟨?_, ?_⟩
    · intro hexp
      have hnotL : ("job-scraping:" ++ i) ∉ L := by
        rw [← hL]
        intro hmem
        have hcond := (List.mem_filter.mp hmem).2
        rw [hcongr, hexp] at hcond
        simp at hcond
      rw [foldl_delKey_lookup, if_neg hnotL]
      exact hst1m
    · intro hexp
      have hmemL : ("job-scraping:" ++ i) ∈ L := by
        rw [← hL]
        refine List.mem_filter.mpr ⟨?_, by rw [hcongr]; exact hexp⟩
        exact (mem_keysWithPrefix st1 _ _).mpr
          ⟨lookup_some_mem_keys _ _ _ hst1m, jobKey_jobPrefix i⟩
      rw [foldl_delKey_lookup, if_pos hmemL]

/-- C1 witness: the amended sweep behaviour at the concrete shared-record
state — the fresh entry survives unchanged, the expired entry is deleted
and deregistered. -/
theorem clear_expired_frame_amended_witness :
    (clearExpiredCache 5 sharedRecordState).hashes.lookup ("search:" ++ "F")
        = sharedRecordState.hashes.lookup ("search:" ++ "F")
    ∧ (clearExpiredCache 5 sharedRecordState).hashes.lookup ("search:" ++ "E") = none
    ∧ "E" ∉ (clearExpiredCache 5 sharedRecordState).activeSearches := by
  have h := clear_expired_frame_amended 5 sharedRecordState (by decide) (by decide)
  exact ⟨(h.1 "F" (by decide) (by decide)).1, (h.2.1 "E" (by decide) (by decide)).1,
    (h.2.1 "E" (by decide) (by decide)).2.1⟩

end JobScraper
